import Mathlib

/-!
Shallow embedding of the memory-management subsystem of a teaching OS kernel
(kernel/kalloc.c, kernel/vm.c, kernel/vm.h), together with theorems checking
the natural-language specification's claims against the code.

Modelling conventions:
* Machine integers are `Nat`; wraparound of the C `uint` / `uint64` types is
  written explicitly (`% M32`, `sub64`, `udec`) at the points where the C
  arithmetic can wrap.
* Physical memory is a byte map `Nat → Nat`; per-frame reference counts are a
  map from frame index (physical address / 4096) to `Nat`.
* A function that can call the kernel's `panic` returns `Res α`; the
  constructor `Res.fatal` models `panic` (which halts the whole machine).
* The file-system collaborator (`readi`/`writei`) is modelled as an
  uninterpreted byte source plus an operation log recorded in the state.
* The RISC-V Sv39 page table is modelled as a three-level tree of 512-entry
  tables; a `none` intermediate entry models a PTE with the valid bit clear
  (the C code stores a physical pointer there instead).
-/

set_option maxRecDepth 8000

namespace Xv6

/-! ## Constants (from riscv.h / memlayout.h / fcntl.h / param.h) -/

def PGSIZE : Nat := 4096
def NCPU : Nat := 8

/-- `MAXVA` (riscv.h): `1 << 38`, written as a literal. -/
def MAXVA : Nat := 274877906944

/-- Page-table entry flag bits (riscv.h).  `PTE_COW` is the repository's
software-defined copy-on-write bit in the RSW field. -/
def PTE_V : Nat := 1
def PTE_R : Nat := 2
def PTE_W : Nat := 4
def PTE_X : Nat := 8
def PTE_U : Nat := 16
def PTE_D : Nat := 128
def PTE_COW : Nat := 256

/-- mmap protection and flag bits (fcntl.h). -/
def PROT_READ : Nat := 1
def PROT_WRITE : Nat := 2
def PROT_EXEC : Nat := 4
def MAP_SHARED : Nat := 1
def MAP_PRIVATE : Nat := 2

/-- Physical memory layout (memlayout.h): RAM ends at `PHYSTOP`; `KERNEND`
models the linker symbol `end` (first allocatable address after the kernel). -/
def PHYSTOP : Nat := 0x88000000
def KERNEND : Nat := 0x80100000

/-- `USYSCALL` (memlayout.h): the fixed high boundary below which `mmap`
places regions; two trampoline/trapframe pages and the usyscall page sit
between it and `MAXVA`. -/
def USYSCALL : Nat := MAXVA - 3 * PGSIZE

/-- `2^32` and `2^64`, written as literals. -/
def M32 : Nat := 4294967296
def M64 : Nat := 18446744073709551616

/-- C `uint64` subtraction `a - b` (wraps modulo `2^64`). -/
def sub64 (a b : Nat) : Nat := (a + (M64 - b % M64)) % M64

/-- C `uint` decrement by one (`__sync_sub_and_fetch(&x, 1)` wraps mod `2^32`). -/
def udec (x : Nat) : Nat := (x + (M32 - 1)) % M32

/-- `PGROUNDDOWN` (riscv.h). -/
def pgRoundDown (a : Nat) : Nat := a / PGSIZE * PGSIZE

/-- `PGROUNDUP` (riscv.h). -/
def pgRoundUp (a : Nat) : Nat := (a + PGSIZE - 1) / PGSIZE * PGSIZE

/-- `PA2PTE` (riscv.h): `((pa) >> 12) << 10`. -/
def PA2PTE (pa : Nat) : Nat := pa >>> 12 <<< 10

/-- `PTE2PA` (riscv.h): `((pte) >> 10) << 12`. -/
def PTE2PA (pte : Nat) : Nat := pte >>> 10 <<< 12

/-- `PTE_FLAGS` (riscv.h): `pte & 0x3FF`. -/
def PTE_FLAGS (pte : Nat) : Nat := pte % 1024

/-! ## Outcomes

`Res α` is the result of a kernel routine that may `panic`: `fatal` models
`panic` (the whole system halts), `ok` a normal return. -/

inductive Res (α : Type) where
  | ok : α → Res α
  | fatal : Res α
deriving Repr

def Res.bind {α β : Type} : Res α → (α → Res β) → Res β
  | .ok a, f => f a
  | .fatal, _ => .fatal

/-! ## Kernel state

`freelists` are the per-CPU free frame lists (`kmem[i].freelist`),
`refcounts` is `page_refcounts[]` indexed by `pa / PGSIZE`, `mem` is physical
memory as a byte map, and `log` records calls into the file-system
collaborator (`readi`/`writei`). -/

inductive FileOp where
  | read : Nat → Nat → Nat → FileOp
  | write : Nat → Nat → Nat → FileOp
deriving DecidableEq, Repr

structure KState where
  freelists : Fin NCPU → List Nat
  refcounts : Nat → Nat
  mem : Nat → Nat
  log : List FileOp

/-- `memset(dst, v, n)`. -/
def memsetF (m : Nat → Nat) (dst v n : Nat) : Nat → Nat :=
  fun x => if dst ≤ x ∧ x < dst + n then v else m x

/-- `memmove(dst, src, n)` within physical memory (source and destination do
not overlap at its uses here). -/
def memmoveF (m : Nat → Nat) (dst src n : Nat) : Nat → Nat :=
  fun x => if dst ≤ x ∧ x < dst + n then m (src + (x - dst)) else m x

/-- `memmove(dst, src, n)` where the source is a kernel-side byte buffer
(modelled as a byte function indexed from 0). -/
def memmoveSrc (m : Nat → Nat) (dst : Nat) (src : Nat → Nat) (n : Nat) : Nat → Nat :=
  fun x => if dst ≤ x ∧ x < dst + n then src (x - dst) else m x

/-! ## Frame allocator (kalloc.c) -/

/-- The scan order of `kalloc`'s do-while loop: the calling CPU's pool first,
then the other pools round-robin. -/
def cpuOrder (cpu : Fin NCPU) : List (Fin NCPU) :=
  (List.range NCPU).map (fun k => ⟨(cpu.val + k) % NCPU, Nat.mod_lt _ (by norm_num [NCPU])⟩)

/-- The body of `kalloc`'s scan: pop the head of the first non-empty pool,
set the frame's refcount to 1 and fill it with the junk byte 5. -/
def kallocScan (s : KState) : List (Fin NCPU) → Option (Nat × KState)
  | [] => none
  | c :: rest =>
    match s.freelists c with
    | [] => kallocScan s rest
    | pa :: tl =>
      some (pa,
        { s with
          freelists := Function.update s.freelists c tl,
          refcounts := Function.update s.refcounts (pa / PGSIZE) 1,
          mem := memsetF s.mem pa 5 PGSIZE })

/-- `kalloc()` — returns `none` when every pool is empty (the exhaustion
sentinel, a null pointer in the C code). -/
def kalloc (cpu : Fin NCPU) (s : KState) : Option (Nat × KState) :=
  kallocScan s (cpuOrder cpu)

/-- `kfree(pa)` — panics on misaligned or out-of-range addresses, atomically
decrements the refcount and returns the frame (poisoned with 0xD) to the
calling CPU's pool only when the count reaches zero. -/
def kfree (cpu : Fin NCPU) (pa : Nat) (s : KState) : Res KState :=
  if pa % PGSIZE ≠ 0 ∨ pa < KERNEND ∨ PHYSTOP ≤ pa then .fatal
  else
    let idx := pa / PGSIZE
    let rc := udec (s.refcounts idx)
    let s1 := { s with refcounts := Function.update s.refcounts idx rc }
    if 0 < rc then .ok s1
    else .ok { s1 with
      mem := memsetF s1.mem pa 0xD PGSIZE,
      freelists := Function.update s1.freelists cpu (pa :: s1.freelists cpu) }

/-- `kincrementrefcount(pa)` (`__sync_fetch_and_add(&rc, 1)`, wraps mod 2^32). -/
def kincrementrefcount (pa : Nat) (s : KState) : KState :=
  { s with refcounts :=
      Function.update s.refcounts (pa / PGSIZE) ((s.refcounts (pa / PGSIZE) + 1) % M32) }

/-- `kcopyonwrite(pa)` — decrement the refcount; on zero, reset it to 1 and
reuse the frame; otherwise allocate a fresh frame and copy the 4096 bytes
into it (`none` in the result when allocation fails). -/
def kcopyonwrite (cpu : Fin NCPU) (pa : Nat) (s : KState) : Res (Option Nat × KState) :=
  if pa % PGSIZE ≠ 0 ∨ pa < KERNEND ∨ PHYSTOP ≤ pa then .fatal
  else
    let idx := pa / PGSIZE
    let rc := udec (s.refcounts idx)
    let s1 := { s with refcounts := Function.update s.refcounts idx rc }
    if rc = 0 then
      .ok (some pa, { s1 with refcounts := Function.update s1.refcounts idx 1 })
    else
      match kalloc cpu s1 with
      | none => .ok (none, s1)
      | some (npa, s2) => .ok (some npa, { s2 with mem := memmoveF s2.mem npa pa PGSIZE })

/-! ## Page table engine (vm.c)

A page table is a three-level Sv39 radix tree.  The C code keeps each level
as a 4096-byte frame of 512 PTEs and links levels through `PA2PTE` pointers
with `PTE_V`; the tree itself is modelled directly (a `none` entry at levels
2/1 is a PTE with the valid bit clear), while leaf level-0 entries are kept
as raw `Nat` PTE values exactly as the code stores them. -/

def PT0 : Type := Fin 512 → Nat
def PT1 : Type := Fin 512 → Option PT0
def PT2 : Type := Fin 512 → Option PT1

def pt0Empty : PT0 := fun _ => 0
def pt1Empty : PT1 := fun _ => none
def ptEmpty : PT2 := fun _ => none

/-- `PX(level, va)` (riscv.h): the 9-bit index of `va` at the given level. -/
def px (level : Nat) (va : Nat) : Fin 512 :=
  ⟨va >>> (12 + 9 * level) % 512, Nat.mod_lt _ (by norm_num)⟩

/-- The value of the level-0 PTE slot for `va`, or `none` when an
intermediate level is missing (`walk(pt, va, 0)` returning a null pointer;
`some e` is the 64-bit entry `*pte`, which may itself be invalid). -/
def ptLookup (pt : PT2) (va : Nat) : Option Nat :=
  match pt (px 2 va) with
  | none => none
  | some t1 =>
    match t1 (px 1 va) with
    | none => none
    | some t0 => some (t0 (px 0 va))

/-- Write `v` through the level-0 PTE slot for `va` (the `*pte = v` performed
by callers of `walk`); leaves the table unchanged when the slot is absent. -/
def ptWrite (pt : PT2) (va : Nat) (v : Nat) : PT2 :=
  match pt (px 2 va) with
  | none => pt
  | some t1 =>
    match t1 (px 1 va) with
    | none => pt
    | some t0 =>
      Function.update pt (px 2 va)
        (some (Function.update t1 (px 1 va)
          (some (Function.update t0 (px 0 va) v))))

/-- `walk(pagetable, va, 0)`: panic above `MAXVA`, otherwise the leaf slot. -/
def walkRead (pt : PT2) (va : Nat) : Res (Option Nat) :=
  if MAXVA ≤ va then .fatal else .ok (ptLookup pt va)

/-- `walk(pagetable, va, 1)`: the two-iteration descent loop, unrolled.  A
missing intermediate table is created from a freshly `kalloc`ed, zeroed
frame; `none` in the result means `walk` returned null because `kalloc`
failed (tables already installed stay installed). -/
def walkAlloc (cpu : Fin NCPU) (pt : PT2) (va : Nat) (s : KState) :
    Res (Option Nat × PT2 × KState) :=
  if MAXVA ≤ va then .fatal
  else
    match pt (px 2 va) with
    | some t1 =>
      match t1 (px 1 va) with
      | some t0 => .ok (some (t0 (px 0 va)), pt, s)
      | none =>
        match kalloc cpu s with
        | none => .ok (none, pt, s)
        | some (pa, s1) =>
          let s2 := { s1 with mem := memsetF s1.mem pa 0 PGSIZE }
          .ok (some 0,
            Function.update pt (px 2 va)
              (some (Function.update t1 (px 1 va) (some pt0Empty))), s2)
    | none =>
      match kalloc cpu s with
      | none => .ok (none, pt, s)
      | some (pa, s1) =>
        let s2 := { s1 with mem := memsetF s1.mem pa 0 PGSIZE }
        match kalloc cpu s2 with
        | none => .ok (none, Function.update pt (px 2 va) (some pt1Empty), s2)
        | some (pa2, s3) =>
          let s4 := { s3 with mem := memsetF s3.mem pa2 0 PGSIZE }
          .ok (some 0,
            Function.update pt (px 2 va)
              (some (Function.update pt1Empty (px 1 va) (some pt0Empty))), s4)

/-- The body of `mappages`' `for(;;)` loop, with the page count made
explicit (`n` = number of leaf entries still to install, always ≥ 1 at
entry in the C code). -/
def mappagesGo (cpu : Fin NCPU) (pt : PT2) (a pa perm : Nat) (n : Nat) (s : KState) :
    Res (Int × PT2 × KState) :=
  match n with
  | 0 => .ok (0, pt, s)
  | n' + 1 =>
    (walkAlloc cpu pt a s).bind fun (r, pt1, s1) =>
    match r with
    | none => .ok (-1, pt1, s1)
    | some v =>
      if v &&& PTE_V ≠ 0 then .fatal
      else
        let pt2 := ptWrite pt1 a (PA2PTE pa ||| perm ||| PTE_V)
        match n' with
        | 0 => .ok (0, pt2, s1)
        | _ + 1 => mappagesGo cpu pt2 (a + PGSIZE) (pa + PGSIZE) perm n' s1

/-- `mappages(pagetable, va, size, pa, perm)`; the loop from
`PGROUNDDOWN(va)` to `PGROUNDDOWN(va+size-1)` runs once per page in that
inclusive range. -/
def mappages (cpu : Fin NCPU) (pt : PT2) (va sz pa perm : Nat) (s : KState) :
    Res (Int × PT2 × KState) :=
  if sz = 0 then .fatal
  else
    mappagesGo cpu pt (pgRoundDown va) pa perm
      ((pgRoundDown (va + sz - 1) - pgRoundDown va) / PGSIZE + 1) s

/-- The body of `uvmunmap`'s loop over `npages` pages starting at `a`. -/
def uvmunmapGo (cpu : Fin NCPU) (pt : PT2) (a : Nat) (n : Nat) (dofree : Bool)
    (s : KState) : Res (PT2 × KState) :=
  match n with
  | 0 => .ok (pt, s)
  | n' + 1 =>
    (walkRead pt a).bind fun r =>
    match r with
    | none => .fatal
    | some e =>
      if e &&& PTE_V = 0 then .fatal
      else if PTE_FLAGS e = PTE_V then .fatal
      else
        (if dofree then kfree cpu (PTE2PA e) s else .ok s).bind fun s1 =>
        uvmunmapGo cpu (ptWrite pt a 0) (a + PGSIZE) n' dofree s1

/-- `uvmunmap(pagetable, va, npages, do_free)`. -/
def uvmunmap (cpu : Fin NCPU) (pt : PT2) (va npages : Nat) (dofree : Bool)
    (s : KState) : Res (PT2 × KState) :=
  if va % PGSIZE ≠ 0 then .fatal
  else uvmunmapGo cpu pt va npages dofree s

/-- `uvmwalkcow(pagetable, va, cow_result)` — the `cow_result` out-parameter
(only ever set to 1 on the COW path and passed as null by `copyout`) is not
modelled.  Returns the leaf entry, rewriting it through `kcopyonwrite` when
its COW bit is set. -/
def uvmwalkcow (cpu : Fin NCPU) (pt : PT2) (va : Nat) (s : KState) :
    Res (Option Nat × PT2 × KState) :=
  if va % PGSIZE ≠ 0 then .fatal
  else
    (walkRead pt va).bind fun r =>
    match r with
    | none => .ok (none, pt, s)
    | some pte =>
      let flags := PTE_FLAGS pte
      if flags &&& PTE_COW = 0 then .ok (some pte, pt, s)
      else
        (kcopyonwrite cpu (PTE2PA pte) s).bind fun (r2, s1) =>
        match r2 with
        | none => .ok (none, pt, s1)
        | some npa =>
          -- flags &= ~PTE_COW; flags |= PTE_W  (flags < 1024, so ~PTE_COW is 767)
          let f2 := (flags &&& 767) ||| PTE_W
          let npte := PA2PTE npa ||| f2
          .ok (some npte, ptWrite pt va npte, s1)

/-- The body of `uvmcopy`'s loop: `done` pages already copied, `n` pages
remaining, so the C loop variable is `i = done * PGSIZE`. -/
def uvmcopyGo (cpu : Fin NCPU) (old new : PT2) (done n : Nat) (s : KState) :
    Res (Int × PT2 × PT2 × KState) :=
  match n with
  | 0 => .ok (0, old, new, s)
  | n' + 1 =>
    let va := PGSIZE * done
    (walkRead old va).bind fun r =>
    match r with
    | none => .fatal
    | some pte =>
      if pte &&& PTE_V = 0 then .fatal
      else
        let pa := PTE2PA pte
        let flags := PTE_FLAGS pte
        -- flags &= ~PTE_W (1019 = 0x3FF & ~PTE_W); flags |= PTE_COW
        let flags' := if flags &&& PTE_W ≠ 0 then (flags &&& 1019) ||| PTE_COW else flags
        let old' := if flags &&& PTE_W ≠ 0 then ptWrite old va (PA2PTE pa ||| flags') else old
        (mappages cpu new va PGSIZE pa flags' s).bind fun (mr, new1, s1) =>
        if mr ≠ 0 then
          (uvmunmap cpu new1 0 done true s1).bind fun (new2, s2) =>
          .ok (-1, old', new2, s2)
        else
          uvmcopyGo cpu old' new1 (done + 1) n' (kincrementrefcount pa s1)

/-- `uvmcopy(old, new, sz)`: the loop `for (i = 0; i < sz; i += PGSIZE)`
runs `⌈sz / PGSIZE⌉` times. -/
def uvmcopy (cpu : Fin NCPU) (old new : PT2) (sz : Nat) (s : KState) :
    Res (Int × PT2 × PT2 × KState) :=
  uvmcopyGo cpu old new 0 ((sz + PGSIZE - 1) / PGSIZE) s

/-- `copyout(pagetable, dstva, src, len)`: the kernel-to-user copy loop.
`src` is the kernel source buffer as a byte function (advanced by `n` on
each iteration, modelling the `src += n` pointer bump). -/
def copyout (cpu : Fin NCPU) (pt : PT2) (dstva : Nat) (src : Nat → Nat)
    (len : Nat) (s : KState) : Res (Int × PT2 × KState) :=
  if hl : len = 0 then .ok (0, pt, s)
  else
    let va0 := pgRoundDown dstva
    if MAXVA ≤ va0 then .ok (-1, pt, s)
    else
      (uvmwalkcow cpu pt va0 s).bind fun (r, pt1, s1) =>
      match r with
      | none => .ok (-1, pt1, s1)
      | some pte =>
        if pte &&& PTE_V = 0 then .ok (-1, pt1, s1)
        else if pte &&& PTE_U = 0 then .ok (-1, pt1, s1)
        else
          let pa0 := PTE2PA pte
          if pte &&& PTE_W = 0 then .ok (-1, pt1, s1)
          else
            let n := min (PGSIZE - (dstva - va0)) len
            let s2 := { s1 with mem := memmoveSrc s1.mem (pa0 + (dstva - va0)) src n }
            copyout cpu pt1 (va0 + PGSIZE) (fun j => src (j + n)) (len - n) s2
termination_by len
decreasing_by
  simp only [pgRoundDown, PGSIZE] at *
  omega

/-! ## VMA manager (vm.c, vm.h)

`struct vm_area`; the `vm_next` link is represented by the position in a
`List VMA` (head = `p->vma_list`), `vm_file` by a small integer file id
(the file-system collaborator), and the `used` slot flag of the fixed
global `vmas[]` pool is not modelled (slot claiming is a lock-free detail;
`vma_alloc` either returns a slot or panics, and no claim concerns slot
exhaustion). -/

structure VMA where
  vm_start : Nat
  vm_end : Nat
  vm_prot : Nat
  vm_flags : Nat
  vm_file : Nat
  vm_file_offset : Nat
deriving DecidableEq, Repr

/-- The capability bits of `p->ofile[fd]` consulted by `mmap`. -/
structure FileCap where
  readable : Bool
  writable : Bool

/-- `vma_find(list, addr, 0)`: first VMA whose `[vm_start, vm_end)` span
contains `addr`. -/
def vma_find (l : List VMA) (addr : Nat) : Option VMA :=
  match l with
  | [] => none
  | v :: rest =>
    if v.vm_start ≤ addr ∧ addr < v.vm_end then some v else vma_find rest addr

/-- `vma_find(list, addr, &prev)`, returning the nodes before the hit, the
hit, and the nodes after it (the `prev` pointer is the last node of the
first component). -/
def vmaFindSplit (l : List VMA) (addr : Nat) : Option (List VMA × VMA × List VMA) :=
  match l with
  | [] => none
  | v :: rest =>
    if v.vm_start ≤ addr ∧ addr < v.vm_end then some ([], v, rest)
    else (vmaFindSplit rest addr).map (fun pvr => (v :: pvr.1, pvr.2.1, pvr.2.2))

/-- `mmap(p, len, prot, flags, fd, offset)`: validate against the file
capability, then place the new region immediately below the first VMA in the
list (or below `USYSCALL`), prepending it.  `none` models the `~0` failure
return; otherwise the chosen start address and the new list. -/
def mmap (file : FileCap) (fid : Nat) (l : List VMA) (len : Nat)
    (prot flags offset : Nat) : Option (Nat × List VMA) :=
  if file.writable = false ∧ prot &&& PROT_WRITE ≠ 0 ∧ flags &&& MAP_SHARED ≠ 0 then none
  else if file.readable = false ∧ prot &&& PROT_READ ≠ 0 then none
  else if offset % PGSIZE ≠ 0 then none
  else
    let max_va := match l with | [] => USYSCALL | v :: _ => v.vm_start
    let start := pgRoundDown (sub64 max_va len)
    let vma : VMA := ⟨start, start + len, prot, flags, fid, offset % M32⟩
    some (start, vma :: l)

/-- `mmap_copy(p, np)`: walk the parent's list, prepending a copy of each
node to the child's list (`filedup` on the shared file is a collaborator
side effect and is not tracked). -/
def mmap_copy (ps : List VMA) (nl : List VMA) : List VMA :=
  match ps with
  | [] => nl
  | v :: rest => mmap_copy rest (v :: nl)

/-- The body of `vma_free`'s loop over the pages of `[va, va + n pages)`:
write back a mapped dirty page when the VMA is `MAP_SHARED`, then
`uvmunmap` it with `do_free`.  `offset` and `bytes_left` are the local
variables of the C loop (note they advance only for mapped pages). -/
def vmaFreeGo (cpu : Fin NCPU) (pt : PT2) (s : KState) (flags fid : Nat)
    (va offset bytes_left : Nat) (n : Nat) : Res (PT2 × KState) :=
  match n with
  | 0 => .ok (pt, s)
  | n' + 1 =>
    (walkRead pt va).bind fun r =>
    match r with
    | none => vmaFreeGo cpu pt s flags fid (va + PGSIZE) offset bytes_left n'
    | some e =>
      if PTE_FLAGS e &&& PTE_V = 0 then
        vmaFreeGo cpu pt s flags fid (va + PGSIZE) offset bytes_left n'
      else
        let length := if bytes_left > PGSIZE then PGSIZE else bytes_left
        let s1 :=
          if flags &&& MAP_SHARED ≠ 0 ∧ PTE_FLAGS e &&& PTE_D ≠ 0 then
            { s with log := s.log ++ [FileOp.write fid offset length] }
          else s
        (uvmunmap cpu pt va 1 true s1).bind fun (pt1, s2) =>
        vmaFreeGo cpu pt1 s2 flags fid (va + PGSIZE) ((offset + PGSIZE) % M32)
          (bytes_left - length) n'

/-- `vma_free(p, prev, vma)` minus the list splicing (performed by the
caller in this list model) and the collaborator `fileclose`.  `bytes_left`
starts as the C `uint` truncation of `vm_end - vm_start`. -/
def vma_free (cpu : Fin NCPU) (pt : PT2) (s : KState) (vma : VMA) :
    Res (PT2 × KState) :=
  vmaFreeGo cpu pt s vma.vm_flags vma.vm_file vma.vm_start
    (vma.vm_file_offset % M32) (sub64 vma.vm_end vma.vm_start % M32)
    ((sub64 vma.vm_end vma.vm_start + PGSIZE - 1) / PGSIZE)

/-- `munmap`'s do-while loop: process `vma`, then continue into `rest` while
the next VMA starts below `unmap_end`.  Splitting the tail VMA when the
range ends strictly inside it mirrors the in-place split of the C code; the
freed node is spliced out by returning only the survivors. -/
def munmapGo (cpu : Fin NCPU) (pt : PT2) (s : KState) (ue : Nat) (vma : VMA)
    (rest : List VMA) : Res (List VMA × PT2 × KState) :=
  if ue < vma.vm_end then
    let tail : VMA := { vma with
      vm_start := ue,
      vm_file_offset := (vma.vm_file_offset + (ue - vma.vm_start)) % M32 }
    let head : VMA := { vma with vm_end := ue }
    (vma_free cpu pt s head).bind fun (pt1, s1) =>
    -- the loop condition `unmap_end > vma->vm_start` is false for the tail
    .ok (tail :: rest, pt1, s1)
  else
    (vma_free cpu pt s vma).bind fun (pt1, s1) =>
    match rest with
    | [] => .ok ([], pt1, s1)
    | v2 :: r2 =>
      if ue > v2.vm_start then munmapGo cpu pt1 s1 ue v2 r2
      else .ok (rest, pt1, s1)

/-- `munmap(p, addr, len)`. -/
def munmap (cpu : Fin NCPU) (pt : PT2) (s : KState) (l : List VMA)
    (addr len : Nat) : Res (Int × List VMA × PT2 × KState) :=
  let us := pgRoundDown addr
  let ue := pgRoundUp ((us + len) % M64)
  match vmaFindSplit l us with
  | none => .ok (0, l, pt, s)
  | some (pre, vma, rest) =>
    if us > vma.vm_start then
      let head : VMA := { vma with vm_end := us }
      let tgt : VMA := { vma with
        vm_start := us,
        vm_file_offset := (vma.vm_file_offset + (us - vma.vm_start)) % M32 }
      (munmapGo cpu pt s ue tgt rest).bind fun (l1, pt1, s1) =>
      .ok (0, pre ++ head :: l1, pt1, s1)
    else
      (munmapGo cpu pt s ue vma rest).bind fun (l1, pt1, s1) =>
      .ok (0, pre ++ l1, pt1, s1)

/-- The permission computation of `mmap_page_fault_handler` (vm.c lines
771-772), verbatim: the C `&&` is a logical conjunction producing 0 or 1. -/
def cAnd (a b : Nat) : Nat := if a ≠ 0 ∧ b ≠ 0 then 1 else 0

def mmapPerm (prot : Nat) : Nat :=
  cAnd prot PROT_READ * PTE_R ||| cAnd prot PROT_WRITE * PTE_W |||
    cAnd prot PROT_EXEC * PTE_X ||| PTE_U

/-- `mmap_page_fault_handler(p, va)`: `fileByte f o` is byte `o` of file `f`
(the `readi` collaborator, modelled as reading exactly `length` bytes and
logged). -/
def mmap_page_fault_handler (cpu : Fin NCPU) (fileByte : Nat → Nat → Nat)
    (pt : PT2) (l : List VMA) (va : Nat) (s : KState) :
    Res (Int × PT2 × KState) :=
  if va % PGSIZE ≠ 0 then .fatal
  else
    match vma_find l va with
    | none => .ok (0, pt, s)
    | some vma =>
      match kalloc cpu s with
      | none => .fatal
      | some (pa, s1) =>
        let s2 := { s1 with mem := memsetF s1.mem pa 0 PGSIZE }
        let offset := (vma.vm_file_offset + (va - vma.vm_start)) % M32
        let length := if sub64 vma.vm_end offset > PGSIZE then PGSIZE
                      else sub64 vma.vm_end offset % M32
        let s3 := { s2 with
          mem := memmoveSrc s2.mem pa (fun j => fileByte vma.vm_file (offset + j)) length,
          log := s2.log ++ [FileOp.read vma.vm_file offset length] }
        (mappages cpu pt va PGSIZE pa (mmapPerm vma.vm_prot) s3).bind
          fun (mr, pt1, s4) =>
        if mr < 0 then .ok (-1, pt1, s4) else .ok (1, pt1, s4)

/-! ## Shared concrete states and small helpers -/

def cpu0 : Fin NCPU := ⟨0, by norm_num [NCPU]⟩

def emptyFreelists : Fin NCPU → List Nat := fun _ => []

/-- A kernel state with no free frames, zero refcounts, zeroed memory. -/
def ksEmpty : KState := ⟨emptyFreelists, fun _ => 0, fun _ => 0, []⟩

/-- The operation log of a handler result (empty on panic). -/
def resLogOf : Res (Int × PT2 × KState) → List FileOp
  | .ok (_, _, s) => s.log
  | .fatal => []

/-! ## Arithmetic and bit-level lemmas -/

theorem udec_eq {x : Nat} (h1 : 1 ≤ x) (h2 : x < M32) : udec x = x - 1 := by
  unfold udec M32
  unfold M32 at h2
  omega

/-- Or-ing a value whose low `k` bits are clear with a value below `2^k`
is addition. -/
theorem lor_low_eq_add {k a b : Nat} (ha : a % 2 ^ k = 0) (hb : b < 2 ^ k) :
    a ||| b = a + b := by
  have hsplit : 2 ^ k * (a / 2 ^ k) = a := by
    have := Nat.div_add_mod a (2 ^ k)
    omega
  apply Nat.eq_of_testBit_eq
  intro i
  conv_lhs => rw [← hsplit]
  conv_rhs => rw [← hsplit]
  rw [Nat.testBit_or, Nat.testBit_mul_pow_two_add _ hb, Nat.testBit_mul_pow_two]
  by_cases hik : i < k
  · simp [hik, Nat.not_le.mpr hik]
  · have hbf : b.testBit i = false :=
      Nat.testBit_lt_two_pow
        (lt_of_lt_of_le hb (Nat.pow_le_pow_right (by norm_num) (Nat.le_of_not_lt hik)))
    simp [hik, hbf, Nat.le_of_not_lt hik]

theorem PA2PTE_eq (pa : Nat) : PA2PTE pa = pa / 4096 * 1024 := by
  unfold PA2PTE
  rw [Nat.shiftRight_eq_div_pow, Nat.shiftLeft_eq]

theorem PTE2PA_eq (pte : Nat) : PTE2PA pte = pte / 1024 * 4096 := by
  unfold PTE2PA
  rw [Nat.shiftRight_eq_div_pow, Nat.shiftLeft_eq]

theorem PTE2PA_aligned (pte : Nat) : PTE2PA pte % PGSIZE = 0 := by
  rw [PTE2PA_eq]
  unfold PGSIZE
  omega

theorem PA2PTE_low (pa : Nat) : PA2PTE pa % 2 ^ 10 = 0 := by
  rw [PA2PTE_eq]
  show pa / 4096 * 1024 % 1024 = 0
  omega

/-- Recover the physical address from an entry built as `PA2PTE pa | flags`. -/
theorem PTE2PA_lor (pa g : Nat) (hpa : pa % PGSIZE = 0) (hg : g < 1024) :
    PTE2PA (PA2PTE pa ||| g) = pa := by
  rw [lor_low_eq_add (PA2PTE_low pa) (show g < 2 ^ 10 by omega), PA2PTE_eq, PTE2PA_eq]
  unfold PGSIZE at hpa
  omega

/-- Recover the flag bits from an entry built as `PA2PTE pa | flags`. -/
theorem PTE_FLAGS_lor (pa g : Nat) (hg : g < 1024) :
    PTE_FLAGS (PA2PTE pa ||| g) = g := by
  rw [lor_low_eq_add (PA2PTE_low pa) (show g < 2 ^ 10 by omega), PA2PTE_eq]
  unfold PTE_FLAGS
  omega

theorem PTE_FLAGS_lt (pte : Nat) : PTE_FLAGS pte < 1024 := by
  unfold PTE_FLAGS
  omega

/-- Testing an entry against a mask below 1024 only reads its flag bits. -/
theorem land_small (e c : Nat) (hc : c < 1024) : e &&& c = PTE_FLAGS e &&& c := by
  apply Nat.eq_of_testBit_eq
  intro i
  unfold PTE_FLAGS
  rw [Nat.testBit_and, Nat.testBit_and, (by norm_num : (1024 : Nat) = 2 ^ 10),
    Nat.testBit_mod_two_pow]
  by_cases hik : i < 10
  · simp [hik]
  · have : c.testBit i = false :=
      Nat.testBit_lt_two_pow
        (lt_of_lt_of_le (by norm_num [hc] : c < 2 ^ 10)
          (Nat.pow_le_pow_right (by norm_num) (Nat.le_of_not_lt hik)))
    simp [hik, this]

/-! ## Frame allocator lemmas -/

theorem kallocScan_empty (s : KState) (h : ∀ c, s.freelists c = []) :
    ∀ L, kallocScan s L = none := by
  intro L
  induction L with
  | nil => rfl
  | cons c rest ih =>
    unfold kallocScan
    rw [h c]
    exact ih

theorem kalloc_empty (cpu : Fin NCPU) (s : KState) (h : ∀ c, s.freelists c = []) :
    kalloc cpu s = none :=
  kallocScan_empty s h _

theorem kallocScan_some {s : KState} {L : List (Fin NCPU)} {pa : Nat} {s' : KState}
    (h : kallocScan s L = some (pa, s')) :
    (∃ c, pa ∈ s.freelists c) ∧
    s'.refcounts = Function.update s.refcounts (pa / PGSIZE) 1 ∧
    s'.mem = memsetF s.mem pa 5 PGSIZE ∧ s'.log = s.log ∧
    (∀ q c, q ∈ s'.freelists c → q ∈ s.freelists c) := by
  induction L with
  | nil => exact absurd h (by simp [kallocScan])
  | cons c rest ih =>
    rw [kallocScan] at h
    rcases hc : s.freelists c with _ | ⟨pa0, tl⟩
    · rw [hc] at h
      exact ih h
    · rw [hc] at h
      injection h with h1
      injection h1 with hpa hs
      subst hpa
      subst hs
      refine ⟨⟨c, by rw [hc]; exact List.mem_cons_self _ _⟩, rfl, rfl, rfl, ?_⟩
      intro q c' hq
      dsimp only at hq
      by_cases hcc : c' = c
      · subst hcc
        rw [Function.update_same] at hq
        rw [hc]
        exact List.mem_cons_of_mem _ hq
      · rwa [Function.update_noteq hcc] at hq

theorem kalloc_some {s : KState} {cpu : Fin NCPU} {pa : Nat} {s' : KState}
    (h : kalloc cpu s = some (pa, s')) :
    (∃ c, pa ∈ s.freelists c) ∧
    s'.refcounts = Function.update s.refcounts (pa / PGSIZE) 1 ∧
    s'.mem = memsetF s.mem pa 5 PGSIZE ∧ s'.log = s.log ∧
    (∀ q c, q ∈ s'.freelists c → q ∈ s.freelists c) :=
  kallocScan_some h

/-! ## Claim C3: `kcopyonwrite` -/

/-- C3: for every validly aligned, in-range frame (with a live, in-range
refcount and free frames disjoint from it), `kcopyonwrite` decrements the
frame's refcount; if the count reaches 0 it resets the count to 1 and
returns the same frame; otherwise it allocates a fresh frame, copies the
original frame's full 4096-byte contents into it, and returns the new frame
— or failure if allocation fails, leaving the original decremented. -/
theorem kcopyonwrite_spec (cpu : Fin NCPU) (pa : Nat) (s : KState)
    (hal : pa % PGSIZE = 0) (hlo : KERNEND ≤ pa) (hhi : pa < PHYSTOP)
    (hrc1 : 1 ≤ s.refcounts (pa / PGSIZE)) (hrc2 : s.refcounts (pa / PGSIZE) < M32)
    (hfree : ∀ c, ∀ q ∈ s.freelists c, pa + PGSIZE ≤ q ∨ q + PGSIZE ≤ pa) :
    (s.refcounts (pa / PGSIZE) = 1 →
      kcopyonwrite cpu pa s =
        .ok (some pa, { s with refcounts := Function.update s.refcounts (pa / PGSIZE) 1 })) ∧
    (2 ≤ s.refcounts (pa / PGSIZE) →
      ((∀ c, s.freelists c = []) →
        kcopyonwrite cpu pa s =
          .ok (none,
            { s with refcounts := Function.update s.refcounts (pa / PGSIZE) (s.refcounts (pa / PGSIZE) - 1) })) ∧
      (∀ npa s2,
        kalloc cpu
            { s with refcounts := Function.update s.refcounts (pa / PGSIZE) (s.refcounts (pa / PGSIZE) - 1) } =
          some (npa, s2) →
        ∃ s3, kcopyonwrite cpu pa s = .ok (some npa, s3) ∧
          npa ≠ pa ∧
          (∀ j < PGSIZE, s3.mem (npa + j) = s.mem (pa + j)) ∧
          s3.refcounts (pa / PGSIZE) = s.refcounts (pa / PGSIZE) - 1 ∧
          s3.refcounts (npa / PGSIZE) = 1)) := by
  have hguard : ¬(pa % PGSIZE ≠ 0 ∨ pa < KERNEND ∨ PHYSTOP ≤ pa) := by
    push_neg
    exact ⟨hal, hlo, hhi⟩
  have hudec : udec (s.refcounts (pa / PGSIZE)) = s.refcounts (pa / PGSIZE) - 1 :=
    udec_eq hrc1 hrc2
  constructor
  · intro h1
    unfold kcopyonwrite
    rw [if_neg hguard]
    simp only [h1, show udec 1 = 0 from by decide]
    simp [Function.update_idem]
  · intro h2
    constructor
    · intro hempty
      unfold kcopyonwrite
      rw [if_neg hguard]
      simp only [hudec]
      rw [if_neg (by omega)]
      have hk0 : kalloc cpu
          { s with refcounts := Function.update s.refcounts (pa / PGSIZE) (s.refcounts (pa / PGSIZE) - 1) } =
          none := kalloc_empty _ _ hempty
      rw [hk0]
    · intro npa s2 hk
      unfold kcopyonwrite
      rw [if_neg hguard]
      simp only [hudec]
      rw [if_neg (by omega)]
      rw [hk]
      refine ⟨_, rfl, ?_, ?_, ?_, ?_⟩
      · -- npa is a free frame, disjoint from the page at pa
        obtain ⟨⟨c, hmem⟩, _, _, _, _⟩ := kalloc_some hk
        have := hfree c npa hmem
        unfold PGSIZE at this
        omega
      · -- the copy reproduces the original page byte for byte
        intro j hj
        obtain ⟨⟨c, hmem⟩, hrc, hmemeq, _, _⟩ := kalloc_some hk
        have hdisj := hfree c npa hmem
        dsimp only
        rw [hmemeq]
        unfold memmoveF memsetF
        rw [if_pos ⟨Nat.le_add_right _ _, by unfold PGSIZE at hj ⊢; omega⟩]
        have : npa + j - npa = j := by omega
        rw [this]
        rw [if_neg (by unfold PGSIZE at hj hdisj ⊢; omega)]
      · obtain ⟨⟨c, hmem⟩, hrc, _, _, _⟩ := kalloc_some hk
        have hdisj := hfree c npa hmem
        have hne : npa / PGSIZE ≠ pa / PGSIZE := by
          unfold PGSIZE at hal hdisj ⊢
          omega
        dsimp only
        rw [hrc, Function.update_noteq (by omega)]
        dsimp only
        rw [Function.update_same]
      · obtain ⟨⟨c, hmem⟩, hrc, _, _, _⟩ := kalloc_some hk
        dsimp only
        rw [hrc, Function.update_same]

/-- Concrete state for the C3 witness: one live frame with refcount 1. -/
def ksRC1 : KState :=
  ⟨emptyFreelists, fun idx => if idx = 0x80300 then 1 else 0, fun _ => 0, []⟩

/-- Witness for C3 at a concrete frame (refcount 1: the frame is reused). -/
theorem kcopyonwrite_spec_witness :
    ((0x80300000 : Nat) % PGSIZE = 0 ∧ KERNEND ≤ 0x80300000 ∧ (0x80300000 : Nat) < PHYSTOP ∧
      1 ≤ ksRC1.refcounts (0x80300000 / PGSIZE) ∧ ksRC1.refcounts (0x80300000 / PGSIZE) < M32 ∧
      (∀ c, ∀ q ∈ ksRC1.freelists c, 0x80300000 + PGSIZE ≤ q ∨ q + PGSIZE ≤ 0x80300000)) ∧
    kcopyonwrite cpu0 0x80300000 ksRC1 =
      .ok (some 0x80300000,
        { ksRC1 with refcounts := Function.update ksRC1.refcounts (0x80300000 / PGSIZE) 1 }) :=
  ⟨⟨by decide, by decide, by decide, by decide, by decide, by decide⟩,
    (kcopyonwrite_spec cpu0 0x80300000 ksRC1 (by decide) (by decide) (by decide)
      (by decide) (by decide) (by decide)).1 (by decide)⟩

/-! ## Claim C4: allocation failure handling -/

/-- C4 (counterexample): with every pool empty and a fault inside a VMA,
`mmap_page_fault_handler` panics (halts the whole system) instead of
propagating the allocation failure as a failure result. -/
theorem mmap_fault_handler_oom_halts :
    mmap_page_fault_handler cpu0 (fun _ _ => 0) ptEmpty
      [⟨0, PGSIZE, PROT_READ, MAP_PRIVATE, 1, 0⟩] 0 ksEmpty = .fatal := rfl

/-- C4 (amended): whenever every pool is empty, `kalloc` returns the failure
sentinel, and `kcopyonwrite` propagates that failure as a failure result of
its own operation, but the VMA fault handler `mmap_page_fault_handler`
halts the whole system on allocation failure instead of propagating it. -/
theorem kalloc_exhaustion_spec (cpu : Fin NCPU) (s : KState)
    (h : ∀ c, s.freelists c = []) :
    kalloc cpu s = none ∧
    (∀ pa, pa % PGSIZE = 0 → KERNEND ≤ pa → pa < PHYSTOP →
      2 ≤ s.refcounts (pa / PGSIZE) → s.refcounts (pa / PGSIZE) < M32 →
      kcopyonwrite cpu pa s =
        .ok (none,
          { s with refcounts := Function.update s.refcounts (pa / PGSIZE) (s.refcounts (pa / PGSIZE) - 1) })) ∧
    (∀ fb pt l va, va % PGSIZE = 0 → (vma_find l va).isSome →
      mmap_page_fault_handler cpu fb pt l va s = .fatal) := by
  refine ⟨kalloc_empty cpu s h, ?_, ?_⟩
  · intro pa hal hlo hhi hrc2 hrcM
    have hguard : ¬(pa % PGSIZE ≠ 0 ∨ pa < KERNEND ∨ PHYSTOP ≤ pa) := by
      push_neg
      exact ⟨hal, hlo, hhi⟩
    have hudec : udec (s.refcounts (pa / PGSIZE)) = s.refcounts (pa / PGSIZE) - 1 :=
      udec_eq (by omega) hrcM
    unfold kcopyonwrite
    rw [if_neg hguard]
    simp only [hudec]
    rw [if_neg (by omega)]
    rw [kalloc_empty cpu
      { s with refcounts :=
          Function.update s.refcounts (pa / PGSIZE) (s.refcounts (pa / PGSIZE) - 1) } h]
  · intro fb pt l va hal hfind
    unfold mmap_page_fault_handler
    rw [if_neg (by omega)]
    match hv : vma_find l va with
    | none => rw [hv] at hfind; exact absurd hfind (by simp)
    | some vma =>
      rw [kalloc_empty cpu s h]

/-- Witness for C4's amended claim at the all-empty state. -/
theorem kalloc_exhaustion_spec_witness :
    (∀ c, ksEmpty.freelists c = []) ∧ kalloc cpu0 ksEmpty = none :=
  ⟨fun _ => rfl, (kalloc_exhaustion_spec cpu0 ksEmpty (fun _ => rfl)).1⟩

/-! ## Claim C6: fault-handler permission bits -/

/-- C6 (code bug): the handler computes permissions with the C logical `&&`,
so a read-only protection (`PROT_READ`, which does not include write or
execute) still yields an entry with the writable and executable bits set;
the claimed bitwise derivation would yield only `PTE_R | PTE_U`. -/
theorem mmapPerm_bug :
    mmapPerm PROT_READ = (PTE_R ||| PTE_W ||| PTE_X ||| PTE_U) ∧
    PROT_READ &&& PROT_WRITE = 0 ∧
    PROT_READ &&& PROT_EXEC = 0 ∧
    mmapPerm PROT_READ &&& PTE_W ≠ 0 ∧
    mmapPerm PROT_READ &&& PTE_X ≠ 0 ∧
    mmapPerm PROT_READ ≠ (PTE_R ||| PTE_U) := by decide

/-! ## Claim C5: VMA list order -/

/-- The VMA list is in ascending `vm_start` order (vm.h: "sorted by
`vm_start`"). -/
def vmaSorted : List VMA → Bool
  | [] => true
  | [_] => true
  | a :: b :: r => decide (a.vm_start < b.vm_start) && vmaSorted (b :: r)

def vmaDisjoint (a b : VMA) : Bool :=
  decide (a.vm_end ≤ b.vm_start ∨ b.vm_end ≤ a.vm_start)

/-- No two VMAs of the list overlap. -/
def vmaOverlapFree : List VMA → Bool
  | [] => true
  | a :: r => r.all (vmaDisjoint a) && vmaOverlapFree r

/-- The higher of two regions mapped top-down from `USYSCALL`. -/
def vmaHi : VMA := ⟨USYSCALL - 0x1000, USYSCALL, 0, 0, 1, 0⟩

/-- The lower of two regions mapped top-down from `USYSCALL`. -/
def vmaLo : VMA := ⟨USYSCALL - 0x2000, USYSCALL - 0x1000, 0, 0, 1, 0⟩

/-- C5 (code bug): two `mmap` calls build a sorted, overlap-free parent
list, but `mmap_copy` reverses it in the child; a further `mmap` in the
child then picks its start below the reversed head (the *highest* region)
and produces a duplicate of an existing region — the child list is neither
sorted nor overlap-free. -/
theorem mmap_copy_breaks_order :
    mmap ⟨true, true⟩ 1 [] 0x1000 0 0 0 = some (USYSCALL - 0x1000, [vmaHi]) ∧
    mmap ⟨true, true⟩ 1 [vmaHi] 0x1000 0 0 0 = some (USYSCALL - 0x2000, [vmaLo, vmaHi]) ∧
    vmaSorted [vmaLo, vmaHi] = true ∧
    vmaOverlapFree [vmaLo, vmaHi] = true ∧
    mmap_copy [vmaLo, vmaHi] [] = [vmaHi, vmaLo] ∧
    vmaSorted [vmaHi, vmaLo] = false ∧
    mmap ⟨true, true⟩ 1 [vmaHi, vmaLo] 0x1000 0 0 0 =
      some (USYSCALL - 0x2000, [vmaLo, vmaHi, vmaLo]) ∧
    vmaOverlapFree [vmaLo, vmaHi, vmaLo] = false := by
  refine ⟨?_, ?_, by decide, by decide, by decide, by decide, ?_, by decide⟩ <;> decide

/-! ## Claim C9: `munmap` full-coverage release -/

/-- The single VMA of the C9 counterexample, spanning `[0x2000, 0x3000)`. -/
def vmaC9 : VMA := ⟨0x2000, 0x3000, PROT_READ, MAP_PRIVATE, 1, 0⟩

/-- C9 (code bug): the range `[0x1000, 0x4000)` of `munmap(0x1000, 0x3000)`
entirely covers the VMA `[0x2000, 0x3000)`, yet `munmap` returns success
leaving the list unchanged, because `vma_find` only looks for a VMA
containing the range's start address. -/
theorem munmap_covered_vma_not_released :
    munmap cpu0 ptEmpty ksEmpty [vmaC9] 0x1000 0x3000 =
      .ok (0, [vmaC9], ptEmpty, ksEmpty) ∧
    pgRoundDown 0x1000 ≤ vmaC9.vm_start ∧
    vmaC9.vm_end ≤ pgRoundUp ((pgRoundDown 0x1000 + 0x3000) % M64) := by
  refine ⟨rfl, by decide, by decide⟩

/-! ## Claim C7: fault-handler file read clamping -/

/-- The VMA of the C7 input: `[0x5000, 0x5800)` backed by file 7 at
offset 0. -/
def vmaC7 : VMA := ⟨0x5000, 0x5800, PROT_READ, MAP_PRIVATE, 7, 0⟩

/-- A state with three free frames on CPU 0 (page frame plus two
page-table frames). -/
def ksC7 : KState :=
  ⟨fun c => if c.val = 0 then [0x80200000, 0x80201000, 0x80202000] else [],
    fun _ => 0, fun _ => 0, []⟩

/-- C7 (code bug): faulting at `va = 0x5000` inside the VMA
`[0x5000, 0x5800)` with file offset 0, the handler reads 4096 bytes — it
clamps the length with `vm_end - offset` (a file offset) instead of
`vm_end - va`, so the claimed `min(4096, vm_end - va) = 0x800` is not what
the code passes to `readi`. -/
theorem mmap_fault_read_length_bug :
    resLogOf (mmap_page_fault_handler cpu0 (fun _ _ => 0) ptEmpty [vmaC7] 0x5000 ksC7) =
      [FileOp.read 7 0 4096] ∧
    (4096 : Nat) ≠ min 4096 (vmaC7.vm_end - 0x5000) := by
  refine ⟨rfl, by decide⟩

/-! ## Claim C10: `copyout` is not atomic on failure -/

/-- A leaf entry mapping frame `0x80300000` valid, readable, writable and
user-accessible. -/
def e10 : Nat := PA2PTE 0x80300000 ||| (PTE_V ||| PTE_R ||| PTE_W ||| PTE_U)

/-- A page table whose page 0 is mapped through `e10` and whose page 1 slot
exists but is invalid (zero). -/
def pt10 : PT2 := fun i2 =>
  if i2.val = 0 then
    some (fun i1 =>
      if i1.val = 0 then some (fun i0 => if i0.val = 0 then e10 else 0) else none)
  else none

/-- Kernel source buffer: byte `j` is `(j + 1) % 256` (so byte 0 is 1). -/
def src10 : Nat → Nat := fun j => (j + 1) % 256

/-- C10: `copyout` of 8192 bytes to user address 0 writes the first 4096
source bytes into the first destination page, then fails (-1) on the
invalid second page, and the partial writes remain in memory. -/
theorem copyout_partial_write :
    ∃ s', copyout cpu0 pt10 0 src10 8192 ksEmpty = .ok (-1, pt10, s') ∧
      s'.mem 0x80300000 = 1 ∧ ksEmpty.mem 0x80300000 = 0 ∧
      (∀ j < 4096, s'.mem (0x80300000 + j) = src10 j) ∧
      (∀ x, x < 0x80300000 ∨ 0x80300000 + 4096 ≤ x → s'.mem x = ksEmpty.mem x) := by
  refine ⟨{ ksEmpty with mem := memmoveSrc ksEmpty.mem 0x80300000 src10 4096 },
    ?_, ?_, rfl, ?_, ?_⟩
  · have h1 : copyout cpu0 pt10 0 src10 8192 ksEmpty =
        copyout cpu0 pt10 4096 (fun j => src10 (j + 4096)) 4096
          { ksEmpty with mem := memmoveSrc ksEmpty.mem 0x80300000 src10 4096 } := by
      conv_lhs => rw [copyout]
      rfl
    have h2 : copyout cpu0 pt10 4096 (fun j => src10 (j + 4096)) 4096
        { ksEmpty with mem := memmoveSrc ksEmpty.mem 0x80300000 src10 4096 } =
        .ok (-1, pt10,
          { ksEmpty with mem := memmoveSrc ksEmpty.mem 0x80300000 src10 4096 }) := by
      conv_lhs => rw [copyout]
      rfl
    exact h1.trans h2
  · show memmoveSrc ksEmpty.mem 0x80300000 src10 4096 0x80300000 = 1
    unfold memmoveSrc
    rw [if_pos ⟨le_refl _, by omega⟩]
    rfl
  · intro j hj
    show memmoveSrc ksEmpty.mem 0x80300000 src10 4096 (0x80300000 + j) = src10 j
    unfold memmoveSrc
    rw [if_pos ⟨by omega, by omega⟩,
      show 0x80300000 + j - 0x80300000 = j from by omega]
  · intro x hx
    show memmoveSrc ksEmpty.mem 0x80300000 src10 4096 x = ksEmpty.mem x
    unfold memmoveSrc
    rw [if_neg (by omega)]

/-! ## Claim C2: `uvmwalkcow` -/

set_option maxRecDepth 40000 in
theorem f2_lt : ∀ x < 1024, (x &&& 767 ||| PTE_W) < 1024 := by decide

set_option maxRecDepth 40000 in
theorem f2_cow : ∀ x < 1024, (x &&& 767 ||| PTE_W) &&& PTE_COW = 0 := by decide

set_option maxRecDepth 40000 in
theorem f2_w : ∀ x < 1024, (x &&& 767 ||| PTE_W) &&& PTE_W ≠ 0 := by decide

/-- A frame returned by `kcopyonwrite` is page-aligned when its input and
all free frames are. -/
theorem kcopyonwrite_some_aligned {cpu : Fin NCPU} {pa : Nat} {s : KState}
    {r : Nat} {s1 : KState} (hal : pa % PGSIZE = 0)
    (hfa : ∀ c, ∀ q ∈ s.freelists c, q % PGSIZE = 0)
    (h : kcopyonwrite cpu pa s = .ok (some r, s1)) : r % PGSIZE = 0 := by
  unfold kcopyonwrite at h
  by_cases hg : pa % PGSIZE ≠ 0 ∨ pa < KERNEND ∨ PHYSTOP ≤ pa
  · rw [if_pos hg] at h
    cases h
  · rw [if_neg hg] at h
    dsimp only at h
    generalize udec (s.refcounts (pa / PGSIZE)) = rc at h
    split at h
    · injection h with h'
      injection h' with h1 h2
      injection h1 with h1
      exact h1 ▸ hal
    · split at h
      · cases h
      · rename_i npa s2 heq
        injection h with h'
        injection h' with h1 h2
        injection h1 with h1
        obtain ⟨⟨c, hmem⟩, _, _, _, _⟩ := kallocScan_some heq
        exact h1 ▸ hfa c npa hmem

/-- C2: for every page table and page-aligned user virtual address,
`uvmwalkcow` returns the leaf entry unchanged when its copy-on-write bit is
clear; when the copy-on-write bit is set it invokes `kcopyonwrite` on the
mapped frame, clears the copy-on-write bit, sets the writable bit, rewrites
the entry to point at the (possibly new) frame with those flags, and
returns the updated entry; it returns null when no leaf exists or the
on-demand copy fails. -/
theorem uvmwalkcow_spec (cpu : Fin NCPU) (pt : PT2) (va : Nat) (s : KState)
    (hal : va % PGSIZE = 0) (hva : va < MAXVA)
    (hfa : ∀ c, ∀ q ∈ s.freelists c, q % PGSIZE = 0) :
    (ptLookup pt va = none → uvmwalkcow cpu pt va s = .ok (none, pt, s)) ∧
    (∀ e, ptLookup pt va = some e → PTE_FLAGS e &&& PTE_COW = 0 →
      uvmwalkcow cpu pt va s = .ok (some e, pt, s)) ∧
    (∀ e, ptLookup pt va = some e → PTE_FLAGS e &&& PTE_COW ≠ 0 →
      (∀ s1, kcopyonwrite cpu (PTE2PA e) s = .ok (none, s1) →
        uvmwalkcow cpu pt va s = .ok (none, pt, s1)) ∧
      (∀ npa s1, kcopyonwrite cpu (PTE2PA e) s = .ok (some npa, s1) →
        uvmwalkcow cpu pt va s =
          .ok (some (PA2PTE npa ||| (PTE_FLAGS e &&& 767 ||| PTE_W)),
            ptWrite pt va (PA2PTE npa ||| (PTE_FLAGS e &&& 767 ||| PTE_W)), s1) ∧
        PTE2PA (PA2PTE npa ||| (PTE_FLAGS e &&& 767 ||| PTE_W)) = npa ∧
        (PA2PTE npa ||| (PTE_FLAGS e &&& 767 ||| PTE_W)) &&& PTE_COW = 0 ∧
        (PA2PTE npa ||| (PTE_FLAGS e &&& 767 ||| PTE_W)) &&& PTE_W ≠ 0)) := by
  have hstep : uvmwalkcow cpu pt va s =
      ((walkRead pt va).bind fun r =>
        match r with
        | none => .ok (none, pt, s)
        | some pte =>
          if PTE_FLAGS pte &&& PTE_COW = 0 then .ok (some pte, pt, s)
          else
            (kcopyonwrite cpu (PTE2PA pte) s).bind fun (r2, s1) =>
            match r2 with
            | none => .ok (none, pt, s1)
            | some npa =>
              .ok (some (PA2PTE npa ||| (PTE_FLAGS pte &&& 767 ||| PTE_W)),
                ptWrite pt va (PA2PTE npa ||| (PTE_FLAGS pte &&& 767 ||| PTE_W)), s1)) := by
    unfold uvmwalkcow
    rw [if_neg (by omega)]
  have hwalk : walkRead pt va = .ok (ptLookup pt va) := by
    unfold walkRead
    rw [if_neg (by omega)]
  refine ⟨?_, ?_, ?_⟩
  · intro hnone
    rw [hstep, hwalk, hnone]
    rfl
  · intro e he hcow
    rw [hstep, hwalk, he]
    show (if PTE_FLAGS e &&& PTE_COW = 0 then _ else _) = _
    rw [if_pos hcow]
  · intro e he hcow
    constructor
    · intro s1 hk
      rw [hstep, hwalk, he]
      show (if PTE_FLAGS e &&& PTE_COW = 0 then _ else _) = _
      rw [if_neg hcow, hk]
      rfl
    · intro npa s1 hk
      have hnal : npa % PGSIZE = 0 :=
        kcopyonwrite_some_aligned (PTE2PA_aligned e) hfa hk
      have hflt : PTE_FLAGS e &&& 767 ||| PTE_W < 1024 := f2_lt _ (PTE_FLAGS_lt e)
      refine ⟨?_, PTE2PA_lor npa _ hnal hflt, ?_, ?_⟩
      · rw [hstep, hwalk, he]
        show (if PTE_FLAGS e &&& PTE_COW = 0 then _ else _) = _
        rw [if_neg hcow, hk]
        rfl
      · rw [land_small _ _ (by unfold PTE_COW; omega), PTE_FLAGS_lor npa _ hflt]
        exact f2_cow _ (PTE_FLAGS_lt e)
      · rw [land_small _ _ (by unfold PTE_W; omega), PTE_FLAGS_lor npa _ hflt]
        exact f2_w _ (PTE_FLAGS_lt e)

/-- The valid, readable, user page entry of the C2 witness (COW clear). -/
def eC2 : Nat := PA2PTE 0x80400000 ||| (PTE_V ||| PTE_R ||| PTE_U)

/-- A page table mapping page 0 through `eC2`. -/
def ptC2 : PT2 := fun i2 =>
  if i2.val = 0 then
    some (fun i1 =>
      if i1.val = 0 then some (fun i0 => if i0.val = 0 then eC2 else 0) else none)
  else none

/-- Witness for C2 at a concrete table: a leaf whose COW bit is clear is
returned unchanged. -/
theorem uvmwalkcow_spec_witness :
    ((0 : Nat) % PGSIZE = 0 ∧ (0 : Nat) < MAXVA ∧
      (∀ c, ∀ q ∈ ksEmpty.freelists c, q % PGSIZE = 0) ∧
      ptLookup ptC2 0 = some eC2 ∧ PTE_FLAGS eC2 &&& PTE_COW = 0) ∧
    uvmwalkcow cpu0 ptC2 0 ksEmpty = .ok (some eC2, ptC2, ksEmpty) :=
  ⟨⟨by decide, by decide, by decide, by decide, by decide⟩,
    (uvmwalkcow_spec cpu0 ptC2 0 ksEmpty (by decide) (by decide) (by decide)).2.1
      eC2 (by decide) (by decide)⟩

/-! ## Page-table locality lemmas -/

theorem ptLookup_none1 {pt : PT2} {va : Nat} (h2 : pt (px 2 va) = none) :
    ptLookup pt va = none := by
  unfold ptLookup
  rw [h2]

theorem ptLookup_none2 {pt : PT2} {va : Nat} {t1 : PT1}
    (h2 : pt (px 2 va) = some t1) (h1 : t1 (px 1 va) = none) :
    ptLookup pt va = none := by
  unfold ptLookup
  rw [h2]
  dsimp only
  rw [h1]

theorem ptLookup_some {pt : PT2} {va : Nat} {t1 : PT1} {t0 : PT0}
    (h2 : pt (px 2 va) = some t1) (h1 : t1 (px 1 va) = some t0) :
    ptLookup pt va = some (t0 (px 0 va)) := by
  unfold ptLookup
  rw [h2]
  dsimp only
  rw [h1]

theorem ptWrite_none1 {pt : PT2} {va : Nat} (v : Nat) (h2 : pt (px 2 va) = none) :
    ptWrite pt va v = pt := by
  unfold ptWrite
  rw [h2]

theorem ptWrite_none2 {pt : PT2} {va : Nat} {t1 : PT1} (v : Nat)
    (h2 : pt (px 2 va) = some t1) (h1 : t1 (px 1 va) = none) :
    ptWrite pt va v = pt := by
  unfold ptWrite
  rw [h2]
  dsimp only
  rw [h1]

theorem ptWrite_eq_of {pt : PT2} {va : Nat} {t1 : PT1} {t0 : PT0} (v : Nat)
    (h2 : pt (px 2 va) = some t1) (h1 : t1 (px 1 va) = some t0) :
    ptWrite pt va v =
      Function.update pt (px 2 va)
        (some (Function.update t1 (px 1 va)
          (some (Function.update t0 (px 0 va) v)))) := by
  unfold ptWrite
  rw [h2]
  dsimp only
  rw [h1]

/-- Two user addresses on different pages differ in at least one radix
index. -/
theorem px_triple_ne (va w : Nat) (hva : va < MAXVA) (hw : w < MAXVA)
    (hne : va / PGSIZE ≠ w / PGSIZE) :
    px 2 va ≠ px 2 w ∨ px 1 va ≠ px 1 w ∨ px 0 va ≠ px 0 w := by
  by_contra hcon
  push_neg at hcon
  obtain ⟨h2, h1, h0⟩ := hcon
  have e2 : va / 1073741824 % 512 = w / 1073741824 % 512 := by
    have := congrArg Fin.val h2
    simpa [px, Nat.shiftRight_eq_div_pow] using this
  have e1 : va / 2097152 % 512 = w / 2097152 % 512 := by
    have := congrArg Fin.val h1
    simpa [px, Nat.shiftRight_eq_div_pow] using this
  have e0 : va / 4096 % 512 = w / 4096 % 512 := by
    have := congrArg Fin.val h0
    simpa [px, Nat.shiftRight_eq_div_pow] using this
  unfold MAXVA at hva hw
  unfold PGSIZE at hne
  omega

theorem ptLookup_update2_ne {pt : PT2} {va w : Nat} {t1' : PT1}
    (h : px 2 w ≠ px 2 va) :
    ptLookup (Function.update pt (px 2 va) (some t1')) w = ptLookup pt w := by
  unfold ptLookup
  rw [Function.update_noteq h]

theorem ptLookup_update2_eq {pt : PT2} {va w : Nat} {t1' : PT1}
    (h : px 2 w = px 2 va) :
    ptLookup (Function.update pt (px 2 va) (some t1')) w =
      (match t1' (px 1 w) with | none => none | some t0 => some (t0 (px 0 w))) := by
  unfold ptLookup
  rw [h, Function.update_same]

theorem ptLookup_expand {pt : PT2} {w : Nat} {t1 : PT1}
    (h : pt (px 2 w) = some t1) :
    ptLookup pt w =
      (match t1 (px 1 w) with | none => none | some t0 => some (t0 (px 0 w))) := by
  unfold ptLookup
  rw [h]

/-- Writing a leaf slot does not change the lookup of any other page. -/
theorem ptLookup_ptWrite_ne (pt : PT2) (va w v : Nat) (hva : va < MAXVA)
    (hw : w < MAXVA) (hne : va / PGSIZE ≠ w / PGSIZE) :
    ptLookup (ptWrite pt va v) w = ptLookup pt w := by
  rcases h2 : pt (px 2 va) with _ | t1
  · rw [ptWrite_none1 v h2]
  · rcases h1 : t1 (px 1 va) with _ | t0
    · rw [ptWrite_none2 v h2 h1]
    · rw [ptWrite_eq_of v h2 h1]
      rcases px_triple_ne va w hva hw hne with hx | hx | hx
      · rw [ptLookup_update2_ne (fun h => hx h.symm)]
      · by_cases h2w : px 2 w = px 2 va
        · have h2' : pt (px 2 w) = some t1 := by rw [h2w]; exact h2
          rw [ptLookup_update2_eq h2w, ptLookup_expand h2',
            Function.update_noteq (fun h => hx h.symm)]
        · rw [ptLookup_update2_ne h2w]
      · by_cases h2w : px 2 w = px 2 va
        · have h2' : pt (px 2 w) = some t1 := by rw [h2w]; exact h2
          rw [ptLookup_update2_eq h2w, ptLookup_expand h2']
          by_cases h1w : px 1 w = px 1 va
          · rw [h1w, Function.update_same, h1]
            dsimp only
            rw [Function.update_noteq (fun h => hx h.symm)]
          · rw [Function.update_noteq h1w]
        · rw [ptLookup_update2_ne h2w]

/-- Writing a present leaf slot makes the lookup return the new value. -/
theorem ptLookup_ptWrite_self (pt : PT2) (va v : Nat)
    (h : ptLookup pt va ≠ none) :
    ptLookup (ptWrite pt va v) va = some v := by
  rcases h2 : pt (px 2 va) with _ | t1
  · exact absurd (ptLookup_none1 h2) h
  · rcases h1 : t1 (px 1 va) with _ | t0
    · exact absurd (ptLookup_none2 h2 h1) h
    · rw [ptWrite_eq_of v h2 h1, ptLookup_update2_eq rfl, Function.update_same]
      dsimp only
      rw [Function.update_same]

/-- Writing an absent slot is a no-op. -/
theorem ptWrite_absent (pt : PT2) (va v : Nat) (h : ptLookup pt va = none) :
    ptWrite pt va v = pt := by
  rcases h2 : pt (px 2 va) with _ | t1
  · exact ptWrite_none1 v h2
  · rcases h1 : t1 (px 1 va) with _ | t0
    · exact ptWrite_none2 v h2 h1
    · rw [ptLookup_some h2 h1] at h
      cases h

/-! ## `kfree` specification -/

theorem kfree_spec (cpu : Fin NCPU) (pa : Nat) (s : KState)
    (hal : pa % PGSIZE = 0) (hlo : KERNEND ≤ pa) (hhi : pa < PHYSTOP)
    (hrc1 : 1 ≤ s.refcounts (pa / PGSIZE)) (hrc2 : s.refcounts (pa / PGSIZE) < M32) :
    ∃ s', kfree cpu pa s = .ok s' ∧
      s'.refcounts = Function.update s.refcounts (pa / PGSIZE) (s.refcounts (pa / PGSIZE) - 1) ∧
      s'.log = s.log ∧
      (∀ q c, q ∈ s'.freelists c → q ∈ s.freelists c ∨ q = pa) ∧
      (2 ≤ s.refcounts (pa / PGSIZE) → s'.freelists = s.freelists) := by
  unfold kfree
  rw [if_neg (by push_neg; exact ⟨hal, hlo, hhi⟩)]
  dsimp only
  rw [udec_eq hrc1 hrc2]
  by_cases h2 : 2 ≤ s.refcounts (pa / PGSIZE)
  · rw [if_pos (by omega)]
    exact ⟨_, rfl, rfl, rfl, fun q c hq => Or.inl hq, fun _ => rfl⟩
  · rw [if_neg (by omega)]
    refine ⟨_, rfl, rfl, rfl, ?_, fun h => absurd h h2⟩
    intro q c hq
    dsimp only at hq
    by_cases hc : c = cpu
    · subst hc
      rw [Function.update_same, List.mem_cons] at hq
      rcases hq with hq | hq
      · exact Or.inr hq
      · exact Or.inl hq
    · rw [Function.update_noteq hc] at hq
      exact Or.inl hq

/-! ## `walk` with allocation -/

theorem walkAlloc_spec (cpu : Fin NCPU) (pt : PT2) (va : Nat) (s : KState)
    (hva : va < MAXVA) :
    ∃ r pt' s', walkAlloc cpu pt va s = .ok (r, pt', s') ∧
      (∀ w, ptLookup pt' w = ptLookup pt w ∨
        (ptLookup pt w = none ∧ ptLookup pt' w = some 0)) ∧
      (∀ q c, q ∈ s'.freelists c → q ∈ s.freelists c) ∧
      (∀ idx, (∀ c q, q ∈ s.freelists c → q / PGSIZE ≠ idx) →
        s'.refcounts idx = s.refcounts idx) ∧
      s'.log = s.log ∧
      (∀ e, r = some e → ptLookup pt' va = some e ∧ (ptLookup pt va = some e ∨ e = 0)) := by
  unfold walkAlloc
  rw [if_neg (by omega)]
  rcases h2 : pt (px 2 va) with _ | t1
  · dsimp only
    rcases hk1 : kalloc cpu s with _ | ⟨pa1, s1⟩
    · dsimp only
      exact ⟨none, pt, s, rfl, fun w => Or.inl rfl, fun q c hq => hq,
        fun idx _ => rfl, rfl, fun e he => by cases he⟩
    · dsimp only
      obtain ⟨⟨c1, hm1⟩, hrc1, _, hlog1, hsh1⟩ := kalloc_some hk1
      rcases hk2 : kalloc cpu { s1 with mem := memsetF s1.mem pa1 0 PGSIZE }
        with _ | ⟨pa2, s3⟩
      · dsimp only
        refine ⟨none, Function.update pt (px 2 va) (some pt1Empty),
          { s1 with mem := memsetF s1.mem pa1 0 PGSIZE }, rfl, ?_, ?_, ?_, hlog1,
          fun e he => by cases he⟩
        · intro w
          left
          by_cases h2w : px 2 w = px 2 va
          · rw [ptLookup_update2_eq h2w, ptLookup_none1 (by rw [h2w]; exact h2)]
            rfl
          · rw [ptLookup_update2_ne h2w]
        · exact fun q c hq => hsh1 q c hq
        · intro idx hid
          show s1.refcounts idx = s.refcounts idx
          rw [hrc1, Function.update_noteq (Ne.symm (hid c1 pa1 hm1))]
      · dsimp only
        obtain ⟨⟨c2, hm2⟩, hrc2, _, hlog2, hsh2⟩ := kalloc_some hk2
        refine ⟨some 0,
          Function.update pt (px 2 va)
            (some (Function.update pt1Empty (px 1 va) (some pt0Empty))),
          { s3 with mem := memsetF s3.mem pa2 0 PGSIZE }, rfl, ?_, ?_, ?_, ?_, ?_⟩
        · intro w
          by_cases h2w : px 2 w = px 2 va
          · by_cases h1w : px 1 w = px 1 va
            · right
              refine ⟨ptLookup_none1 (by rw [h2w]; exact h2), ?_⟩
              rw [ptLookup_update2_eq h2w, h1w, Function.update_same]
              rfl
            · left
              rw [ptLookup_update2_eq h2w, Function.update_noteq h1w,
                ptLookup_none1 (by rw [h2w]; exact h2)]
              rfl
          · left
            rw [ptLookup_update2_ne h2w]
        · exact fun q c hq => hsh1 q c (hsh2 q c hq)
        · intro idx hid
          show s3.refcounts idx = s.refcounts idx
          rw [hrc2]
          rw [Function.update_noteq (Ne.symm (hid c2 pa2 (hsh1 pa2 c2 hm2)))]
          show s1.refcounts idx = s.refcounts idx
          rw [hrc1, Function.update_noteq (Ne.symm (hid c1 pa1 hm1))]
        · show s3.log = s.log
          rw [hlog2]
          exact hlog1
        · intro e he
          injection he with he
          subst he
          refine ⟨?_, Or.inr rfl⟩
          rw [ptLookup_update2_eq rfl, Function.update_same]
          rfl
  · dsimp only
    rcases h1 : t1 (px 1 va) with _ | t0
    · dsimp only
      rcases hk1 : kalloc cpu s with _ | ⟨pa1, s1⟩
      · dsimp only
        exact ⟨none, pt, s, rfl, fun w => Or.inl rfl, fun q c hq => hq,
          fun idx _ => rfl, rfl, fun e he => by cases he⟩
      · dsimp only
        obtain ⟨⟨c1, hm1⟩, hrc1, _, hlog1, hsh1⟩ := kalloc_some hk1
        refine ⟨some 0,
          Function.update pt (px 2 va)
            (some (Function.update t1 (px 1 va) (some pt0Empty))),
          { s1 with mem := memsetF s1.mem pa1 0 PGSIZE }, rfl, ?_, ?_, ?_, hlog1, ?_⟩
        · intro w
          by_cases h2w : px 2 w = px 2 va
          · by_cases h1w : px 1 w = px 1 va
            · right
              refine ⟨ptLookup_none2 (by rw [h2w]; exact h2) (by rw [h1w]; exact h1), ?_⟩
              rw [ptLookup_update2_eq h2w, h1w, Function.update_same]
              rfl
            · left
              rw [ptLookup_update2_eq h2w, Function.update_noteq h1w,
                ptLookup_expand (by rw [h2w]; exact h2)]
          · left
            rw [ptLookup_update2_ne h2w]
        · exact fun q c hq => hsh1 q c hq
        · intro idx hid
          show s1.refcounts idx = s.refcounts idx
          rw [hrc1, Function.update_noteq (Ne.symm (hid c1 pa1 hm1))]
        · intro e he
          injection he with he
          subst he
          refine ⟨?_, Or.inr rfl⟩
          rw [ptLookup_update2_eq rfl, Function.update_same]
          rfl
    · dsimp only
      refine ⟨some (t0 (px 0 va)), pt, s, rfl, fun w => Or.inl rfl,
        fun q c hq => hq, fun idx _ => rfl, rfl, ?_⟩
      intro e he
      injection he with he
      subst he
      exact ⟨ptLookup_some h2 h1, Or.inl (ptLookup_some h2 h1)⟩

/-! ## Single-page `mappages` -/

theorem pgRoundDown_self {va : Nat} (h : va % PGSIZE = 0) : pgRoundDown va = va := by
  unfold pgRoundDown
  unfold PGSIZE at *
  omega

theorem mappagesGo_one (cpu : Fin NCPU) (pt : PT2) (va pa perm : Nat) (s : KState) :
    mappagesGo cpu pt va pa perm 1 s =
      (walkAlloc cpu pt va s).bind fun x =>
        match x with
        | (r, pt1, s1) =>
          match r with
          | none => .ok (-1, pt1, s1)
          | some v =>
            if v &&& PTE_V ≠ 0 then .fatal
            else .ok (0, ptWrite pt1 va (PA2PTE pa ||| perm ||| PTE_V), s1) := rfl

theorem mappages_one (cpu : Fin NCPU) (pt : PT2) (va pa perm : Nat) (s : KState)
    (hal : va % PGSIZE = 0) (hva : va < MAXVA)
    (hslot : ∀ e, ptLookup pt va = some e → e &&& PTE_V = 0) :
    ∃ mr pt' s', mappages cpu pt va PGSIZE pa perm s = .ok (mr, pt', s') ∧
      (mr = 0 ∨ mr = -1) ∧
      (∀ q c, q ∈ s'.freelists c → q ∈ s.freelists c) ∧
      (∀ idx, (∀ c q, q ∈ s.freelists c → q / PGSIZE ≠ idx) →
        s'.refcounts idx = s.refcounts idx) ∧
      s'.log = s.log ∧
      (∀ w, w < MAXVA → w / PGSIZE ≠ va / PGSIZE →
        (ptLookup pt' w = ptLookup pt w ∨
          (ptLookup pt w = none ∧ ptLookup pt' w = some 0))) ∧
      (mr = 0 → ptLookup pt' va = some (PA2PTE pa ||| perm ||| PTE_V)) ∧
      (mr = -1 →
        (ptLookup pt' va = ptLookup pt va ∨
          (ptLookup pt va = none ∧ ptLookup pt' va = some 0))) := by
  obtain ⟨r, pt1, s1, heq, hlook, hsh, hrc, hlog, hsome⟩ := walkAlloc_spec cpu pt va s hva
  have hcount : mappages cpu pt va PGSIZE pa perm s = mappagesGo cpu pt va pa perm 1 s := by
    unfold mappages
    rw [if_neg (by norm_num [PGSIZE])]
    have hr1 : pgRoundDown va = va := pgRoundDown_self hal
    have hr2 : pgRoundDown (va + PGSIZE - 1) = va := by
      unfold pgRoundDown
      unfold PGSIZE at *
      omega
    rw [hr1, hr2]
    norm_num
  rw [hcount, mappagesGo_one, heq]
  dsimp only [Res.bind]
  cases r with
  | none =>
    dsimp only
    refine ⟨-1, pt1, s1, rfl, Or.inr rfl, hsh, hrc, hlog, fun w _ _ => hlook w,
      ?_, fun _ => hlook va⟩
    intro h
    exact absurd h (by decide)
  | some v =>
    dsimp only
    have hv : v &&& PTE_V = 0 := by
      obtain ⟨_, hor⟩ := hsome v rfl
      rcases hor with h | h
      · exact hslot v h
      · subst h
        rfl
    rw [if_neg (by rw [hv]; exact fun h => h rfl)]
    have hvslot : ptLookup pt1 va ≠ none := by
      rw [(hsome v rfl).1]
      exact fun h => by cases h
    refine ⟨0, ptWrite pt1 va (PA2PTE pa ||| perm ||| PTE_V), s1, rfl, Or.inl rfl,
      hsh, hrc, hlog, ?_, ?_, ?_⟩
    · intro w hw hne
      rw [ptLookup_ptWrite_ne pt1 va w _ hva hw (fun h => hne h.symm)]
      exact hlook w
    · intro _
      exact ptLookup_ptWrite_self pt1 va _ hvslot
    · intro h
      exact absurd h (by decide)

/-! ## `uvmunmap` loop specification -/

theorem uvmunmapGo_succ (cpu : Fin NCPU) (pt : PT2) (a m : Nat) (s : KState) :
    uvmunmapGo cpu pt a (m + 1) true s =
      (walkRead pt a).bind fun r =>
        match r with
        | none => .fatal
        | some e =>
          if e &&& PTE_V = 0 then .fatal
          else if PTE_FLAGS e = PTE_V then .fatal
          else (if true then kfree cpu (PTE2PA e) s else .ok s).bind fun s1 =>
            uvmunmapGo cpu (ptWrite pt a 0) (a + PGSIZE) m true s1 := rfl

theorem uvmunmapGo_spec (cpu : Fin NCPU) :
    ∀ (n : Nat) (pt : PT2) (a : Nat) (s : KState) (e : Nat → Nat),
    a % PGSIZE = 0 →
    a + PGSIZE * n ≤ MAXVA →
    (∀ k, k < n → ptLookup pt (a + PGSIZE * k) = some (e k)) →
    (∀ k, k < n → e k &&& PTE_V ≠ 0) →
    (∀ k, k < n → PTE_FLAGS (e k) ≠ PTE_V) →
    (∀ k, k < n → KERNEND ≤ PTE2PA (e k) ∧ PTE2PA (e k) < PHYSTOP) →
    (∀ k, k < n → 1 ≤ s.refcounts (PTE2PA (e k) / PGSIZE) ∧
      s.refcounts (PTE2PA (e k) / PGSIZE) < M32) →
    (∀ k1, k1 < n → ∀ k2, k2 < n → k1 ≠ k2 →
      PTE2PA (e k1) / PGSIZE ≠ PTE2PA (e k2) / PGSIZE) →
    ∃ pt' s', uvmunmapGo cpu pt a n true s = .ok (pt', s') ∧
      (∀ k, k < n → ptLookup pt' (a + PGSIZE * k) = some 0) ∧
      (∀ w, w < MAXVA → (∀ k, k < n → w / PGSIZE ≠ (a + PGSIZE * k) / PGSIZE) →
        ptLookup pt' w = ptLookup pt w) ∧
      (∀ k, k < n → s'.refcounts (PTE2PA (e k) / PGSIZE) =
        s.refcounts (PTE2PA (e k) / PGSIZE) - 1) ∧
      (∀ idx, (∀ k, k < n → PTE2PA (e k) / PGSIZE ≠ idx) →
        s'.refcounts idx = s.refcounts idx) ∧
      s'.log = s.log ∧
      (∀ q c, q ∈ s'.freelists c → q ∈ s.freelists c ∨ ∃ k, k < n ∧ q = PTE2PA (e k)) ∧
      ((∀ k, k < n → 2 ≤ s.refcounts (PTE2PA (e k) / PGSIZE)) →
        ∀ q c, q ∈ s'.freelists c → q ∈ s.freelists c) := by
  intro n
  induction n with
  | zero =>
    intro pt a s e _ _ _ _ _ _ _ _
    exact ⟨pt, s, rfl, fun k hk => absurd hk (by omega),
      fun w _ _ => rfl, fun k hk => absurd hk (by omega), fun idx _ => rfl, rfl,
      fun q c hq => Or.inl hq, fun _ q c hq => hq⟩
  | succ m ih =>
    intro pt a s e hal hrange hpages hv hleaf hpa hrc hdist
    have hpdiv : ∀ i, (a + PGSIZE * i) / PGSIZE = a / PGSIZE + i := by
      intro i
      unfold PGSIZE at *
      omega
    have hva : a < MAXVA := by
      unfold PGSIZE at hrange
      unfold MAXVA at *
      omega
    have h0 : ptLookup pt a = some (e 0) := by
      have := hpages 0 (by omega)
      simpa using this
    obtain ⟨s1, hkeq, hkrc, hklog, hkfl, hkfl2⟩ :=
      kfree_spec cpu (PTE2PA (e 0)) s (PTE2PA_aligned _) (hpa 0 (by omega)).1
        (hpa 0 (by omega)).2 (hrc 0 (by omega)).1 (hrc 0 (by omega)).2
    have hwr : walkRead pt a = .ok (ptLookup pt a) := by
      unfold walkRead
      rw [if_neg (by omega)]
    have hstep : uvmunmapGo cpu pt a (m + 1) true s =
        uvmunmapGo cpu (ptWrite pt a 0) (a + PGSIZE) m true s1 := by
      rw [uvmunmapGo_succ, hwr, h0]
      dsimp only [Res.bind]
      rw [if_neg (hv 0 (by omega)), if_neg (hleaf 0 (by omega)), if_pos rfl, hkeq]
    have harith : ∀ k : Nat, a + PGSIZE + PGSIZE * k = a + PGSIZE * (k + 1) := by
      intro k
      ring
    have hlook1 : ∀ k, k < m →
        ptLookup (ptWrite pt a 0) (a + PGSIZE + PGSIZE * k) = some (e (k + 1)) := by
      intro k hk
      rw [harith k, ptLookup_ptWrite_ne pt a _ 0 hva
        (by unfold PGSIZE at hrange ⊢; unfold MAXVA at *; omega)
        (by rw [hpdiv (k + 1)]; omega)]
      exact hpages (k + 1) (by omega)
    have hrc1 : ∀ k, k < m →
        1 ≤ s1.refcounts (PTE2PA (e (k + 1)) / PGSIZE) ∧
        s1.refcounts (PTE2PA (e (k + 1)) / PGSIZE) < M32 := by
      intro k hk
      rw [hkrc, Function.update_noteq
        (Ne.symm (hdist 0 (by omega) (k + 1) (by omega) (by omega)))]
      exact hrc (k + 1) (by omega)
    obtain ⟨pt', s', hreq, hc1, hc2, hc3, hc4, hc5, hc6, hc7⟩ :=
      ih (ptWrite pt a 0) (a + PGSIZE) s1 (fun k => e (k + 1))
        (by unfold PGSIZE at *; omega)
        (by unfold PGSIZE at *; unfold MAXVA at *; omega)
        hlook1
        (fun k hk => hv (k + 1) (by omega))
        (fun k hk => hleaf (k + 1) (by omega))
        (fun k hk => hpa (k + 1) (by omega))
        hrc1
        (fun k1 hk1 k2 hk2 hne =>
          hdist (k1 + 1) (by omega) (k2 + 1) (by omega) (by omega))
    refine ⟨pt', s', ?_, ?_, ?_, ?_, ?_, ?_, ?_, ?_⟩
    · rw [hstep]
      exact hreq
    · intro k hk
      rcases Nat.eq_zero_or_pos k with hk0 | hk0
      · subst hk0
        rw [show a + PGSIZE * 0 = a from by ring]
        rw [hc2 a hva ?hdisj]
        · exact ptLookup_ptWrite_self pt a 0 (by rw [h0]; exact fun h => by cases h)
        case hdisj =>
          intro j hjm
          rw [harith j, hpdiv (j + 1)]
          omega
      · obtain ⟨j, rfl⟩ : ∃ j, k = j + 1 := ⟨k - 1, by omega⟩
        rw [← harith j]
        exact hc1 j (by omega)
    · intro w hw hwk
      rw [hc2 w hw ?hd2, ptLookup_ptWrite_ne pt a w 0 hva hw ?hd3]
      case hd2 =>
        intro k hk
        rw [harith k]
        exact hwk (k + 1) (by omega)
      case hd3 =>
        have := hwk 0 (by omega)
        rw [hpdiv 0] at this
        omega
    · intro k hk
      rcases Nat.eq_zero_or_pos k with hk0 | hk0
      · subst hk0
        rw [hc4 _ (fun j hj =>
          Ne.symm (hdist 0 (by omega) (j + 1) (by omega) (by omega))),
          hkrc, Function.update_same]
      · obtain ⟨j, rfl⟩ : ∃ j, k = j + 1 := ⟨k - 1, by omega⟩
        rw [hc3 j (by omega), hkrc, Function.update_noteq
          (Ne.symm (hdist 0 (by omega) (j + 1) (by omega) (by omega)))]
    · intro idx hid
      rw [hc4 idx (fun j hj => hid (j + 1) (by omega)), hkrc,
        Function.update_noteq (Ne.symm (hid 0 (by omega)))]
    · rw [hc5]
      exact hklog
    · intro q c hq
      rcases hc6 q c hq with hq1 | ⟨k, hk, hq1⟩
      · rcases hkfl q c hq1 with hq2 | hq2
        · exact Or.inl hq2
        · exact Or.inr ⟨0, by omega, hq2⟩
      · exact Or.inr ⟨k + 1, by omega, hq1⟩
    · intro hstrong q c hq
      have hfl1 : s1.freelists = s.freelists := hkfl2 (hstrong 0 (by omega))
      have hIH := hc7 (fun k hk => by
        rw [hkrc, Function.update_noteq
          (Ne.symm (hdist 0 (by omega) (k + 1) (by omega) (by omega)))]
        exact hstrong (k + 1) (by omega)) q c hq
      rw [hfl1] at hIH
      exact hIH

/-! ## Claim C1: `uvmcopy` -/

/-- The flag adjustment `uvmcopy` performs on a writable entry: clear
`PTE_W` (1019 = 0x3FF & ~PTE_W), set `PTE_COW`; non-writable flags are kept
as they are. -/
def cowFlags (f : Nat) : Nat :=
  if f &&& PTE_W ≠ 0 then (f &&& 1019) ||| PTE_COW else f

/-- The parent's entry after `uvmcopy` visits it. -/
def parentEntry (pte : Nat) : Nat :=
  if PTE_FLAGS pte &&& PTE_W ≠ 0 then
    PA2PTE (PTE2PA pte) ||| ((PTE_FLAGS pte &&& 1019) ||| PTE_COW)
  else pte

/-- The entry `mappages` installs in the child for a parent entry `pte`. -/
def childEntry (pte : Nat) : Nat :=
  PA2PTE (PTE2PA pte) ||| cowFlags (PTE_FLAGS pte) ||| PTE_V

set_option maxRecDepth 40000 in
theorem cowFlags_lt : ∀ f < 1024, cowFlags f ||| PTE_V < 1024 := by decide

set_option maxRecDepth 40000 in
theorem cowFlags_valid : ∀ f < 1024, (cowFlags f ||| PTE_V) &&& PTE_V ≠ 0 := by decide

set_option maxRecDepth 40000 in
theorem cowFlags_leaf : ∀ f < 1024, f &&& PTE_V ≠ 0 → f ≠ PTE_V →
    cowFlags f ||| PTE_V ≠ PTE_V := by decide

theorem childEntry_flags (pte : Nat) :
    PTE_FLAGS (childEntry pte) = cowFlags (PTE_FLAGS pte) ||| PTE_V := by
  unfold childEntry
  rw [Nat.lor_assoc]
  exact PTE_FLAGS_lor _ _ (cowFlags_lt _ (PTE_FLAGS_lt pte))

theorem childEntry_pa (pte : Nat) : PTE2PA (childEntry pte) = PTE2PA pte := by
  unfold childEntry
  rw [Nat.lor_assoc]
  exact PTE2PA_lor _ _ (PTE2PA_aligned pte) (cowFlags_lt _ (PTE_FLAGS_lt pte))

theorem childEntry_valid (pte : Nat) : childEntry pte &&& PTE_V ≠ 0 := by
  rw [land_small _ _ (by unfold PTE_V; omega), childEntry_flags]
  exact cowFlags_valid _ (PTE_FLAGS_lt pte)

theorem childEntry_leaf (pte : Nat) (hv : pte &&& PTE_V ≠ 0)
    (hleaf : PTE_FLAGS pte ≠ PTE_V) : PTE_FLAGS (childEntry pte) ≠ PTE_V := by
  rw [childEntry_flags]
  refine cowFlags_leaf _ (PTE_FLAGS_lt pte) ?_ hleaf
  rw [land_small _ _ (by unfold PTE_V; omega)] at hv
  exact hv

theorem uvmcopyGo_succ (cpu : Fin NCPU) (old new : PT2) (done r : Nat) (s : KState) :
    uvmcopyGo cpu old new done (r + 1) s =
      (let va := PGSIZE * done
      (walkRead old va).bind fun rr =>
      match rr with
      | none => .fatal
      | some pte =>
        if pte &&& PTE_V = 0 then .fatal
        else
          let pa := PTE2PA pte
          let flags := PTE_FLAGS pte
          let flags' := if flags &&& PTE_W ≠ 0 then (flags &&& 1019) ||| PTE_COW else flags
          let old' := if flags &&& PTE_W ≠ 0 then ptWrite old va (PA2PTE pa ||| flags') else old
          (mappages cpu new va PGSIZE pa flags' s).bind fun (mr, new1, s1) =>
          if mr ≠ 0 then
            (uvmunmap cpu new1 0 done true s1).bind fun (new2, s2) =>
            .ok (-1, old', new2, s2)
          else
            uvmcopyGo cpu old' new1 (done + 1) r (kincrementrefcount pa s1)) := rfl

theorem uvmcopyGo_succ2 (cpu : Fin NCPU) (old new : PT2) (done r : Nat) (s : KState) :
    uvmcopyGo cpu old new done (r + 1) s =
      ((walkRead old (PGSIZE * done)).bind fun rr =>
      match rr with
      | none => .fatal
      | some pte =>
        if pte &&& PTE_V = 0 then .fatal
        else
          (mappages cpu new (PGSIZE * done) PGSIZE (PTE2PA pte)
              (cowFlags (PTE_FLAGS pte)) s).bind fun (mr, new1, s1) =>
          if mr ≠ 0 then
            (uvmunmap cpu new1 0 done true s1).bind fun (new2, s2) =>
            .ok (-1,
              (if PTE_FLAGS pte &&& PTE_W ≠ 0 then
                ptWrite old (PGSIZE * done)
                  (PA2PTE (PTE2PA pte) ||| cowFlags (PTE_FLAGS pte))
              else old), new2, s2)
          else
            uvmcopyGo cpu
              (if PTE_FLAGS pte &&& PTE_W ≠ 0 then
                ptWrite old (PGSIZE * done)
                  (PA2PTE (PTE2PA pte) ||| cowFlags (PTE_FLAGS pte))
              else old)
              new1 (done + 1) r (kincrementrefcount (PTE2PA pte) s1)) := rfl

theorem uvmcopyGo_spec (cpu : Fin NCPU) :
    ∀ (rem done : Nat) (old new : PT2) (s : KState) (e : Nat → Nat),
    PGSIZE * (done + rem) ≤ MAXVA →
    (∀ j, done ≤ j → j < done + rem → ptLookup old (PGSIZE * j) = some (e j)) →
    (∀ j, j < done + rem → e j &&& PTE_V ≠ 0) →
    (∀ j, j < done + rem → PTE_FLAGS (e j) ≠ PTE_V) →
    (∀ j, j < done + rem → KERNEND ≤ PTE2PA (e j) ∧ PTE2PA (e j) < PHYSTOP) →
    (∀ j, done ≤ j → j < done + rem → 1 ≤ s.refcounts (PTE2PA (e j) / PGSIZE) ∧
      s.refcounts (PTE2PA (e j) / PGSIZE) + 1 < M32) →
    (∀ j, j < done → 2 ≤ s.refcounts (PTE2PA (e j) / PGSIZE) ∧
      s.refcounts (PTE2PA (e j) / PGSIZE) < M32) →
    (∀ j1, j1 < done + rem → ∀ j2, j2 < done + rem → j1 ≠ j2 →
      PTE2PA (e j1) / PGSIZE ≠ PTE2PA (e j2) / PGSIZE) →
    (∀ c q, q ∈ s.freelists c → ∀ j, j < done + rem →
      q / PGSIZE ≠ PTE2PA (e j) / PGSIZE) →
    (∀ j, j < done → ptLookup new (PGSIZE * j) = some (childEntry (e j))) →
    (∀ j, done ≤ j → j < done + rem → ∀ ev,
      ptLookup new (PGSIZE * j) = some ev → ev = 0) →
    ∃ res old' new' s', uvmcopyGo cpu old new done rem s = .ok (res, old', new', s') ∧
      ((res = 0 ∧
        (∀ j, done ≤ j → j < done + rem →
          ptLookup old' (PGSIZE * j) = some (parentEntry (e j))) ∧
        (∀ w, w < MAXVA → (∀ j, done ≤ j → j < done + rem → w / PGSIZE ≠ j) →
          ptLookup old' w = ptLookup old w) ∧
        (∀ j, j < done + rem → ptLookup new' (PGSIZE * j) = some (childEntry (e j))) ∧
        (∀ j, done ≤ j → j < done + rem →
          s'.refcounts (PTE2PA (e j) / PGSIZE) =
            s.refcounts (PTE2PA (e j) / PGSIZE) + 1) ∧
        (∀ j, j < done →
          s'.refcounts (PTE2PA (e j) / PGSIZE) = s.refcounts (PTE2PA (e j) / PGSIZE)) ∧
        (∀ q c, q ∈ s'.freelists c → q ∈ s.freelists c)) ∨
      (res = -1 ∧
        (∃ i, done ≤ i ∧ i < done + rem ∧
          ∀ j, done ≤ j → j < done + rem →
            ptLookup old' (PGSIZE * j) =
              some (if j ≤ i then parentEntry (e j) else e j)) ∧
        (∀ w, w < MAXVA → (∀ j, done ≤ j → j < done + rem → w / PGSIZE ≠ j) →
          ptLookup old' w = ptLookup old w) ∧
        (∀ j, j < done + rem → ∀ ev, ptLookup new' (PGSIZE * j) = some ev → ev = 0) ∧
        (∀ j, j < done →
          s'.refcounts (PTE2PA (e j) / PGSIZE) =
            s.refcounts (PTE2PA (e j) / PGSIZE) - 1) ∧
        (∀ j, done ≤ j → j < done + rem →
          s'.refcounts (PTE2PA (e j) / PGSIZE) = s.refcounts (PTE2PA (e j) / PGSIZE)) ∧
        (∀ q c, q ∈ s'.freelists c → q ∈ s.freelists c))) := by
  intro rem
  induction rem with
  | zero =>
    intro done old new s e hmax hold hv hleaf hpa hrcA hrcB hdist hfree hnew1 hnew2
    refine ⟨0, old, new, s, rfl, Or.inl ⟨rfl, ?_, ?_, ?_, ?_, ?_, ?_⟩⟩
    · intro j hj1 hj2
      exact absurd hj2 (by omega)
    · intro w _ _
      rfl
    · intro j hj
      exact hnew1 j (by omega)
    · intro j hj1 hj2
      exact absurd hj2 (by omega)
    · intro j _
      rfl
    · exact fun q c hq => hq
  | succ r ih =>
    intro done old new s e hmax hold hv hleaf hpa hrcA hrcB hdist hfree hnew1 hnew2
    have hpgj : ∀ j : Nat, PGSIZE * j / PGSIZE = j := by
      intro j
      unfold PGSIZE
      omega
    have hjlt : ∀ j, j < done + (r + 1) → PGSIZE * j < MAXVA := by
      intro j hj
      unfold PGSIZE at hmax ⊢
      unfold MAXVA at hmax ⊢
      omega
    have hva : PGSIZE * done < MAXVA := hjlt done (by omega)
    have hwr : walkRead old (PGSIZE * done) = .ok (ptLookup old (PGSIZE * done)) := by
      unfold walkRead
      rw [if_neg (by omega)]
    have h0 : ptLookup old (PGSIZE * done) = some (e done) :=
      hold done (le_refl done) (by omega)
    have hG1 : ptLookup
        (if PTE_FLAGS (e done) &&& PTE_W ≠ 0 then
          ptWrite old (PGSIZE * done)
            (PA2PTE (PTE2PA (e done)) ||| cowFlags (PTE_FLAGS (e done)))
        else old) (PGSIZE * done) = some (parentEntry (e done)) := by
      unfold parentEntry cowFlags
      by_cases hW : PTE_FLAGS (e done) &&& PTE_W ≠ 0
      · simp only [if_pos hW]
        exact ptLookup_ptWrite_self old _ _
          (by rw [h0]; exact fun hne => Option.noConfusion hne)
      · simp only [if_neg hW]
        exact h0
    have hG2 : ∀ w, w < MAXVA → w / PGSIZE ≠ done → ptLookup
        (if PTE_FLAGS (e done) &&& PTE_W ≠ 0 then
          ptWrite old (PGSIZE * done)
            (PA2PTE (PTE2PA (e done)) ||| cowFlags (PTE_FLAGS (e done)))
        else old) w = ptLookup old w := by
      intro w hw hwd
      by_cases hW : PTE_FLAGS (e done) &&& PTE_W ≠ 0
      · rw [if_pos hW]
        exact ptLookup_ptWrite_ne old _ w _ hva hw (by rw [hpgj]; omega)
      · rw [if_neg hW]
    rw [uvmcopyGo_succ2, hwr]
    dsimp only [Res.bind]
    rw [h0]
    dsimp only
    rw [if_neg (hv done (by omega))]
    obtain ⟨mr, new1, s1, hmeq, hmr01, hmsh, hmrc, hmlog, hmloc, hm0, hmm1⟩ :=
      mappages_one cpu new (PGSIZE * done) (PTE2PA (e done))
        (cowFlags (PTE_FLAGS (e done))) s
        (by unfold PGSIZE; omega) hva
        (fun ev hev => by
          rw [hnew2 done (le_refl done) (by omega) ev hev]
          exact Nat.zero_and _)
    rw [hmeq]
    dsimp only [Res.bind]
    have hs1rc : ∀ j, j < done + (r + 1) →
        s1.refcounts (PTE2PA (e j) / PGSIZE) = s.refcounts (PTE2PA (e j) / PGSIZE) :=
      fun j hj => hmrc _ (fun c q hq => hfree c q hq j hj)
    rcases hmr01 with h01 | h01
    · -- mappages succeeded: bump the shared frame's refcount and recurse
      subst h01
      rw [if_neg (fun hne => hne rfl)]
      have hs2rcd : (kincrementrefcount (PTE2PA (e done)) s1).refcounts
          (PTE2PA (e done) / PGSIZE) =
          s.refcounts (PTE2PA (e done) / PGSIZE) + 1 := by
        unfold kincrementrefcount
        dsimp only
        rw [Function.update_same, hs1rc done (by omega),
          Nat.mod_eq_of_lt (hrcA done (le_refl done) (by omega)).2]
      have hs2rc : ∀ j, j < done + (r + 1) → j ≠ done →
          (kincrementrefcount (PTE2PA (e done)) s1).refcounts
            (PTE2PA (e j) / PGSIZE) = s.refcounts (PTE2PA (e j) / PGSIZE) := by
        intro j hj hjd
        unfold kincrementrefcount
        dsimp only
        rw [Function.update_noteq (hdist j hj done (by omega) hjd), hs1rc j hj]
      have hs2fl : ∀ q c,
          q ∈ (kincrementrefcount (PTE2PA (e done)) s1).freelists c →
          q ∈ s.freelists c := fun q c hq => hmsh q c hq
      obtain ⟨res2, old2, new2, st2, hreq, hpost⟩ :=
        ih (done + 1)
          (if PTE_FLAGS (e done) &&& PTE_W ≠ 0 then
            ptWrite old (PGSIZE * done)
              (PA2PTE (PTE2PA (e done)) ||| cowFlags (PTE_FLAGS (e done)))
          else old)
          new1 (kincrementrefcount (PTE2PA (e done)) s1) e
          (by unfold PGSIZE at hmax ⊢; unfold MAXVA at hmax ⊢; omega)
          (fun j hj1 hj2 => by
            rw [hG2 (PGSIZE * j) (hjlt j (by omega)) (by rw [hpgj]; omega)]
            exact hold j (by omega) (by omega))
          (fun j hj => hv j (by omega))
          (fun j hj => hleaf j (by omega))
          (fun j hj => hpa j (by omega))
          (fun j hj1 hj2 => by
            rw [hs2rc j (by omega) (by omega)]
            exact hrcA j (by omega) (by omega))
          (fun j hj => by
            by_cases hjd : j = done
            · rw [hjd, hs2rcd]
              have h1 := hrcA done (le_refl done) (by omega)
              omega
            · rw [hs2rc j (by omega) hjd]
              exact hrcB j (by omega))
          (fun j1 hj1 j2 hj2 hne => hdist j1 (by omega) j2 (by omega) hne)
          (fun c q hq j hj => hfree c q (hs2fl q c hq) j (by omega))
          (fun j hj => by
            by_cases hjd : j = done
            · rw [hjd, hm0 rfl]
              rfl
            · rcases hmloc (PGSIZE * j) (hjlt j (by omega))
                (by rw [hpgj, hpgj]; omega) with hx | hx
              · rw [hx]
                exact hnew1 j (by omega)
              · have h1 := hx.1
                rw [hnew1 j (by omega)] at h1
                exact Option.noConfusion h1)
          (fun j hj1 hj2 ev hev => by
            rcases hmloc (PGSIZE * j) (hjlt j (by omega))
              (by rw [hpgj, hpgj]; omega) with hx | hx
            · rw [hx] at hev
              exact hnew2 j (by omega) (by omega) ev hev
            · rw [hx.2] at hev
              injection hev with h2
              exact h2.symm)
      refine ⟨res2, old2, new2, st2, hreq, ?_⟩
      rcases hpost with ⟨hres0, hP1, hP2, hP3, hP4, hP5, hP6⟩ |
        ⟨hresm, ⟨i, hi1, hi2, hiE⟩, hF2, hF3, hF4, hF5, hF6⟩
      · left
        refine ⟨hres0, ?_, ?_, ?_, ?_, ?_, ?_⟩
        · intro j hj1 hj2
          by_cases hjd : j = done
          · rw [hjd, hP2 (PGSIZE * done) hva (fun j2 h1 h2 => by rw [hpgj]; omega)]
            exact hG1
          · exact hP1 j (by omega) (by omega)
        · intro w hw hwj
          rw [hP2 w hw (fun j hj1 hj2 => hwj j (by omega) (by omega)),
            hG2 w hw (hwj done (le_refl done) (by omega))]
        · intro j hj
          exact hP3 j (by omega)
        · intro j hj1 hj2
          by_cases hjd : j = done
          · rw [hjd, hP5 done (by omega), hs2rcd]
          · rw [hP4 j (by omega) (by omega), hs2rc j (by omega) hjd]
        · intro j hj
          rw [hP5 j (by omega), hs2rc j (by omega) (by omega)]
        · exact fun q c hq => hs2fl q c (hP6 q c hq)
      · right
        refine ⟨hresm, ⟨i, by omega, by omega, ?_⟩, ?_, ?_, ?_, ?_, ?_⟩
        · intro j hj1 hj2
          by_cases hjd : j = done
          · rw [hjd, hF2 (PGSIZE * done) hva (fun j2 h1 h2 => by rw [hpgj]; omega),
              hG1, if_pos (by omega : done ≤ i)]
          · exact hiE j (by omega) (by omega)
        · intro w hw hwj
          rw [hF2 w hw (fun j hj1 hj2 => hwj j (by omega) (by omega)),
            hG2 w hw (hwj done (le_refl done) (by omega))]
        · intro j hj ev hev
          exact hF3 j (by omega) ev hev
        · intro j hj
          rw [hF4 j (by omega), hs2rc j (by omega) (by omega)]
        · intro j hj1 hj2
          by_cases hjd : j = done
          · rw [hjd, hF4 done (by omega), hs2rcd]
            omega
          · rw [hF5 j (by omega) (by omega), hs2rc j (by omega) hjd]
        · exact fun q c hq => hs2fl q c (hF6 q c hq)
    · -- mappages failed: roll the child mappings back and return -1
      subst h01
      rw [if_pos (by decide : (-1 : Int) ≠ 0)]
      unfold uvmunmap
      rw [if_neg (by unfold PGSIZE; omega)]
      obtain ⟨new2, st2, hueq, hu1, hu2, hu3, hu4, _, _, hu7⟩ :=
        uvmunmapGo_spec cpu done new1 0 s1 (fun k => childEntry (e k))
          (Nat.zero_mod PGSIZE)
          (by unfold PGSIZE at hmax ⊢; unfold MAXVA at hmax ⊢; omega)
          (fun k hk => by
            rw [Nat.zero_add]
            rcases hmloc (PGSIZE * k) (hjlt k (by omega))
              (by rw [hpgj, hpgj]; omega) with hx | hx
            · rw [hx]
              exact hnew1 k hk
            · have h1 := hx.1
              rw [hnew1 k hk] at h1
              exact Option.noConfusion h1)
          (fun k hk => childEntry_valid (e k))
          (fun k hk => childEntry_leaf (e k) (hv k (by omega)) (hleaf k (by omega)))
          (fun k hk => by
            rw [childEntry_pa]
            exact hpa k (by omega))
          (fun k hk => by
            rw [childEntry_pa, hs1rc k (by omega)]
            have h1 := hrcB k hk
            omega)
          (fun k1 hk1 k2 hk2 hne => by
            rw [childEntry_pa, childEntry_pa]
            exact hdist k1 (by omega) k2 (by omega) hne)
      rw [hueq]
      dsimp only [Res.bind]
      refine ⟨-1, _, new2, st2, rfl, Or.inr ⟨rfl, ⟨done, le_refl done, by omega, ?_⟩,
        ?_, ?_, ?_, ?_, ?_⟩⟩
      · intro j hj1 hj2
        by_cases hjd : j = done
        · rw [hjd, if_pos (le_refl done)]
          exact hG1
        · rw [if_neg (by omega : ¬ j ≤ done),
            hG2 (PGSIZE * j) (hjlt j (by omega)) (by rw [hpgj]; omega)]
          exact hold j (by omega) (by omega)
      · intro w hw hwj
        exact hG2 w hw (hwj done (le_refl done) (by omega))
      · intro j hj ev hev
        rcases Nat.lt_or_ge j done with hjd | hjd
        · have h1 := hu1 j hjd
          rw [Nat.zero_add] at h1
          rw [h1] at hev
          injection hev with h2
          exact h2.symm
        · have h1 := hu2 (PGSIZE * j) (hjlt j (by omega))
            (fun k hk => by rw [Nat.zero_add, hpgj, hpgj]; omega)
          rw [h1] at hev
          by_cases hjd2 : j = done
          · rw [hjd2] at hev
            rcases hmm1 rfl with hy | hy
            · rw [hy] at hev
              exact hnew2 done (le_refl done) (by omega) ev hev
            · rw [hy.2] at hev
              injection hev with h2
              exact h2.symm
          · rcases hmloc (PGSIZE * j) (hjlt j (by omega))
              (by rw [hpgj, hpgj]; omega) with hy | hy
            · rw [hy] at hev
              exact hnew2 j (by omega) (by omega) ev hev
            · rw [hy.2] at hev
              injection hev with h2
              exact h2.symm
      · intro j hj
        have h1 := hu3 j hj
        rw [childEntry_pa] at h1
        rw [h1, hs1rc j (by omega)]
      · intro j hj1 hj2
        have h1 := hu4 (PTE2PA (e j) / PGSIZE) (fun k hk => by
          rw [childEntry_pa]
          exact hdist k (by omega) j (by omega) (by omega))
        rw [h1, hs1rc j (by omega)]
      · intro q c hq
        exact hmsh q c (hu7 (fun k hk => by
          rw [childEntry_pa, hs1rc k (by omega)]
          exact (hrcB k hk).1) q c hq)

/-- C1: `uvmcopy(old, new, sz)` with a fresh child table visits every page
below `sz` in the parent (all of which must be mapped, or the kernel
panics); on success (result 0) each writable parent entry has been retagged
copy-on-write (writable bit cleared, COW bit set) in the parent, the child
maps every page to the same frame with the same adjusted permission bits,
and each frame's refcount is incremented; if mapping into the child fails
partway (result -1), every child page is left unmapped (the already-mapped
prefix was unmapped again with frame release), the parent's already-modified
entries are left as-is, and the net refcounts are unchanged. -/
theorem uvmcopy_spec (cpu : Fin NCPU) (old : PT2) (sz : Nat) (s : KState)
    (e : Nat → Nat)
    (hsz : sz ≤ MAXVA)
    (hold : ∀ j, j < (sz + PGSIZE - 1) / PGSIZE →
      ptLookup old (PGSIZE * j) = some (e j))
    (hv : ∀ j, j < (sz + PGSIZE - 1) / PGSIZE → e j &&& PTE_V ≠ 0)
    (hleaf : ∀ j, j < (sz + PGSIZE - 1) / PGSIZE → PTE_FLAGS (e j) ≠ PTE_V)
    (hpa : ∀ j, j < (sz + PGSIZE - 1) / PGSIZE →
      KERNEND ≤ PTE2PA (e j) ∧ PTE2PA (e j) < PHYSTOP)
    (hrc : ∀ j, j < (sz + PGSIZE - 1) / PGSIZE →
      1 ≤ s.refcounts (PTE2PA (e j) / PGSIZE) ∧
      s.refcounts (PTE2PA (e j) / PGSIZE) + 1 < M32)
    (hdist : ∀ j1, j1 < (sz + PGSIZE - 1) / PGSIZE →
      ∀ j2, j2 < (sz + PGSIZE - 1) / PGSIZE → j1 ≠ j2 →
      PTE2PA (e j1) / PGSIZE ≠ PTE2PA (e j2) / PGSIZE)
    (hfree : ∀ c q, q ∈ s.freelists c → ∀ j, j < (sz + PGSIZE - 1) / PGSIZE →
      q / PGSIZE ≠ PTE2PA (e j) / PGSIZE) :
    ∃ res old' new' s', uvmcopy cpu old ptEmpty sz s = .ok (res, old', new', s') ∧
      ((res = 0 ∧
        (∀ j, j < (sz + PGSIZE - 1) / PGSIZE →
          ptLookup old' (PGSIZE * j) = some (parentEntry (e j))) ∧
        (∀ j, j < (sz + PGSIZE - 1) / PGSIZE →
          ptLookup new' (PGSIZE * j) = some (childEntry (e j))) ∧
        (∀ j, j < (sz + PGSIZE - 1) / PGSIZE →
          s'.refcounts (PTE2PA (e j) / PGSIZE) =
            s.refcounts (PTE2PA (e j) / PGSIZE) + 1)) ∨
      (res = -1 ∧
        (∃ i, i < (sz + PGSIZE - 1) / PGSIZE ∧
          ∀ j, j < (sz + PGSIZE - 1) / PGSIZE →
            ptLookup old' (PGSIZE * j) =
              some (if j ≤ i then parentEntry (e j) else e j)) ∧
        (∀ j, j < (sz + PGSIZE - 1) / PGSIZE → ∀ ev,
          ptLookup new' (PGSIZE * j) = some ev → ev = 0) ∧
        (∀ j, j < (sz + PGSIZE - 1) / PGSIZE →
          s'.refcounts (PTE2PA (e j) / PGSIZE) =
            s.refcounts (PTE2PA (e j) / PGSIZE)))) := by
  have hmax : PGSIZE * (0 + (sz + PGSIZE - 1) / PGSIZE) ≤ MAXVA := by
    unfold MAXVA at hsz ⊢
    unfold PGSIZE
    omega
  obtain ⟨res, old', new', s', heq, hpost⟩ :=
    uvmcopyGo_spec cpu ((sz + PGSIZE - 1) / PGSIZE) 0 old ptEmpty s e
      hmax
      (fun j _ hj => hold j (by omega))
      (fun j hj => hv j (by omega))
      (fun j hj => hleaf j (by omega))
      (fun j hj => hpa j (by omega))
      (fun j _ hj => hrc j (by omega))
      (fun j hj => absurd hj (by omega))
      (fun j1 hj1 j2 hj2 hne => hdist j1 (by omega) j2 (by omega) hne)
      (fun c q hq j hj => hfree c q hq j (by omega))
      (fun j hj => absurd hj (by omega))
      (fun j _ _ ev hev => by
        have h1 : ptLookup ptEmpty (PGSIZE * j) = none := rfl
        rw [h1] at hev
        exact Option.noConfusion hev)
  refine ⟨res, old', new', s', heq, ?_⟩
  rcases hpost with ⟨h0, hA, _, hC, hD, _, _⟩ |
    ⟨h1, ⟨i, _, hi2, hiE⟩, _, hC, _, hE, _⟩
  · exact Or.inl ⟨h0, fun j hj => hA j (by omega) (by omega),
      fun j hj => hC j (by omega), fun j hj => hD j (by omega) (by omega)⟩
  · exact Or.inr ⟨h1, ⟨i, by omega, fun j hj => hiE j (by omega) (by omega)⟩,
      fun j hj ev => hC j (by omega) ev,
      fun j hj => hE j (by omega) (by omega)⟩

/-- The writable user page entry of the C1 witness. -/
def eC1 : Nat := PA2PTE 0x80400000 ||| (PTE_V ||| PTE_R ||| PTE_W ||| PTE_U)

/-- A parent table mapping page 0 through `eC1`. -/
def ptC1 : PT2 := fun i2 =>
  if i2.val = 0 then
    some (fun i1 =>
      if i1.val = 0 then some (fun i0 => if i0.val = 0 then eC1 else 0) else none)
  else none

/-- Allocator state for the C1 witness: the copied frame is live with
refcount 1 and no frame is free. -/
def ksC1 : KState :=
  ⟨emptyFreelists, fun idx => if idx = 0x80400 then 1 else 0, fun _ => 0, []⟩

/-- Witness for C1 at a one-page parent table. -/
theorem uvmcopy_spec_witness :
    ((4096 : Nat) ≤ MAXVA ∧
      (∀ j, j < (4096 + PGSIZE - 1) / PGSIZE →
        ptLookup ptC1 (PGSIZE * j) = some eC1) ∧
      (∀ j, j < (4096 + PGSIZE - 1) / PGSIZE → eC1 &&& PTE_V ≠ 0) ∧
      (∀ j, j < (4096 + PGSIZE - 1) / PGSIZE → PTE_FLAGS eC1 ≠ PTE_V) ∧
      (∀ j, j < (4096 + PGSIZE - 1) / PGSIZE →
        KERNEND ≤ PTE2PA eC1 ∧ PTE2PA eC1 < PHYSTOP) ∧
      (∀ j, j < (4096 + PGSIZE - 1) / PGSIZE →
        1 ≤ ksC1.refcounts (PTE2PA eC1 / PGSIZE) ∧
        ksC1.refcounts (PTE2PA eC1 / PGSIZE) + 1 < M32) ∧
      (∀ j1, j1 < (4096 + PGSIZE - 1) / PGSIZE →
        ∀ j2, j2 < (4096 + PGSIZE - 1) / PGSIZE → j1 ≠ j2 →
        PTE2PA eC1 / PGSIZE ≠ PTE2PA eC1 / PGSIZE) ∧
      (∀ c q, q ∈ ksC1.freelists c → ∀ j, j < (4096 + PGSIZE - 1) / PGSIZE →
        q / PGSIZE ≠ PTE2PA eC1 / PGSIZE)) ∧
    (∃ res old' new' s',
      uvmcopy cpu0 ptC1 ptEmpty 4096 ksC1 = .ok (res, old', new', s') ∧
      ((res = 0 ∧
        (∀ j, j < (4096 + PGSIZE - 1) / PGSIZE →
          ptLookup old' (PGSIZE * j) = some (parentEntry eC1)) ∧
        (∀ j, j < (4096 + PGSIZE - 1) / PGSIZE →
          ptLookup new' (PGSIZE * j) = some (childEntry eC1)) ∧
        (∀ j, j < (4096 + PGSIZE - 1) / PGSIZE →
          s'.refcounts (PTE2PA eC1 / PGSIZE) =
            ksC1.refcounts (PTE2PA eC1 / PGSIZE) + 1)) ∨
      (res = -1 ∧
        (∃ i, i < (4096 + PGSIZE - 1) / PGSIZE ∧
          ∀ j, j < (4096 + PGSIZE - 1) / PGSIZE →
            ptLookup old' (PGSIZE * j) =
              some (if j ≤ i then parentEntry eC1 else eC1)) ∧
        (∀ j, j < (4096 + PGSIZE - 1) / PGSIZE → ∀ ev,
          ptLookup new' (PGSIZE * j) = some ev → ev = 0) ∧
        (∀ j, j < (4096 + PGSIZE - 1) / PGSIZE →
          s'.refcounts (PTE2PA eC1 / PGSIZE) =
            ksC1.refcounts (PTE2PA eC1 / PGSIZE))))) :=
  ⟨⟨by decide, by decide, by decide, by decide, by decide, by decide, by decide,
      by decide⟩,
    uvmcopy_spec cpu0 ptC1 4096 ksC1 (fun _ => eC1) (by decide) (by decide)
      (by decide) (by decide) (by decide) (by decide) (by decide) (by decide)⟩

/-! ## Claim C8: `munmap` splitting a VMA -/

theorem vmaFreeGo_succ (cpu : Fin NCPU) (pt : PT2) (s : KState) (flags fid : Nat)
    (va offset bl n : Nat) :
    vmaFreeGo cpu pt s flags fid va offset bl (n + 1) =
      ((walkRead pt va).bind fun r =>
      match r with
      | none => vmaFreeGo cpu pt s flags fid (va + PGSIZE) offset bl n
      | some e =>
        if PTE_FLAGS e &&& PTE_V = 0 then
          vmaFreeGo cpu pt s flags fid (va + PGSIZE) offset bl n
        else
          (uvmunmap cpu pt va 1 true
              (if flags &&& MAP_SHARED ≠ 0 ∧ PTE_FLAGS e &&& PTE_D ≠ 0 then
                { s with log := s.log ++
                  [FileOp.write fid offset (if bl > PGSIZE then PGSIZE else bl)] }
              else s)).bind fun (pt1, s2) =>
          vmaFreeGo cpu pt1 s2 flags fid (va + PGSIZE) ((offset + PGSIZE) % M32)
            (bl - (if bl > PGSIZE then PGSIZE else bl)) n) := rfl

/-- The page loop of `vma_free`: pages are classified by an entry oracle `m`;
mapped pages (valid leaf entries) are written back if shared-and-dirty and
then unmapped with frame release, unmapped or invalid pages are skipped. -/
theorem vmaFreeGo_spec (cpu : Fin NCPU) :
    ∀ (n : Nat) (pt : PT2) (s : KState) (flags fid va offset bl : Nat)
      (m : Nat → Option Nat),
    va % PGSIZE = 0 →
    va + PGSIZE * n ≤ MAXVA →
    (∀ k, k < n → ptLookup pt (va + PGSIZE * k) = m k) →
    (∀ k e, k < n → m k = some e → PTE_FLAGS e &&& PTE_V ≠ 0 →
      PTE_FLAGS e ≠ PTE_V ∧ KERNEND ≤ PTE2PA e ∧ PTE2PA e < PHYSTOP ∧
      1 ≤ s.refcounts (PTE2PA e / PGSIZE) ∧ s.refcounts (PTE2PA e / PGSIZE) < M32) →
    (∀ k1 e1 k2 e2, k1 < n → k2 < n → k1 ≠ k2 → m k1 = some e1 → m k2 = some e2 →
      PTE_FLAGS e1 &&& PTE_V ≠ 0 → PTE_FLAGS e2 &&& PTE_V ≠ 0 →
      PTE2PA e1 / PGSIZE ≠ PTE2PA e2 / PGSIZE) →
    ∃ pt' s', vmaFreeGo cpu pt s flags fid va offset bl n = .ok (pt', s') ∧
      (∀ k e, k < n → m k = some e → PTE_FLAGS e &&& PTE_V ≠ 0 →
        ptLookup pt' (va + PGSIZE * k) = some 0 ∧
        s'.refcounts (PTE2PA e / PGSIZE) = s.refcounts (PTE2PA e / PGSIZE) - 1) ∧
      (∀ w, w < MAXVA → (∀ k, k < n → w / PGSIZE ≠ (va + PGSIZE * k) / PGSIZE) →
        ptLookup pt' w = ptLookup pt w) ∧
      (∀ idx, (∀ k e, k < n → m k = some e → PTE_FLAGS e &&& PTE_V ≠ 0 →
        PTE2PA e / PGSIZE ≠ idx) → s'.refcounts idx = s.refcounts idx) ∧
      (∀ q c, q ∈ s'.freelists c →
        q ∈ s.freelists c ∨ ∃ k e, k < n ∧ m k = some e ∧ q = PTE2PA e) := by
  intro n
  induction n with
  | zero =>
    intro pt s flags fid va offset bl m _ _ _ _ _
    exact ⟨pt, s, rfl, fun k e hk => absurd hk (by omega),
      fun w _ _ => rfl, fun idx _ => rfl, fun q c hq => Or.inl hq⟩
  | succ n' ih =>
    intro pt s flags fid va offset bl m hal hrange hcls hgood hdist
    have hpdiv : ∀ i : Nat, (va + PGSIZE * i) / PGSIZE = va / PGSIZE + i := by
      intro i
      unfold PGSIZE
      omega
    have hva : va < MAXVA := by
      unfold PGSIZE at hrange
      unfold MAXVA at hrange ⊢
      omega
    have hwr : walkRead pt va = .ok (ptLookup pt va) := by
      unfold walkRead
      rw [if_neg (by omega)]
    have h0 : ptLookup pt va = m 0 := by
      have h1 := hcls 0 (by omega)
      rw [show va + PGSIZE * 0 = va from by ring] at h1
      exact h1
    rw [vmaFreeGo_succ, hwr]
    dsimp only [Res.bind]
    rw [h0]
    cases hm0 : m 0 with
    | none =>
      dsimp only
      obtain ⟨pt', s', heq, hc1, hc2, hc3, hc4⟩ :=
        ih pt s flags fid (va + PGSIZE) offset bl (fun k => m (k + 1))
          (by unfold PGSIZE at hal ⊢; omega)
          (by unfold PGSIZE at hrange ⊢; unfold MAXVA at hrange ⊢; omega)
          (fun k hk => by
            rw [show va + PGSIZE + PGSIZE * k = va + PGSIZE * (k + 1) from by ring]
            exact hcls (k + 1) (by omega))
          (fun k e hk hme hfl => hgood (k + 1) e (by omega) hme hfl)
          (fun k1 e1 k2 e2 h1 h2 hne hm1 hm2 hf1 hf2 =>
            hdist (k1 + 1) e1 (k2 + 1) e2 (by omega) (by omega) (by omega)
              hm1 hm2 hf1 hf2)
      refine ⟨pt', s', heq, ?_, ?_, ?_, ?_⟩
      · intro k e hk hme hfl
        rcases Nat.eq_zero_or_pos k with hk0 | hk0
        · subst hk0
          rw [hm0] at hme
          exact Option.noConfusion hme
        · obtain ⟨j, rfl⟩ : ∃ j, k = j + 1 := ⟨k - 1, by omega⟩
          have h2 := hc1 j e (by omega) hme hfl
          rw [show va + PGSIZE + PGSIZE * j = va + PGSIZE * (j + 1) from by ring] at h2
          exact h2
      · intro w hw hwk
        exact hc2 w hw (fun k hk => by
          rw [show va + PGSIZE + PGSIZE * k = va + PGSIZE * (k + 1) from by ring]
          exact hwk (k + 1) (by omega))
      · intro idx hid
        exact hc3 idx (fun k e hk hme hfl => hid (k + 1) e (by omega) hme hfl)
      · intro q c hq
        rcases hc4 q c hq with hq1 | ⟨k, e, hk, hme, hqe⟩
        · exact Or.inl hq1
        · exact Or.inr ⟨k + 1, e, by omega, hme, hqe⟩
    | some e0 =>
      dsimp only
      by_cases hfl0 : PTE_FLAGS e0 &&& PTE_V = 0
      · rw [if_pos hfl0]
        obtain ⟨pt', s', heq, hc1, hc2, hc3, hc4⟩ :=
          ih pt s flags fid (va + PGSIZE) offset bl (fun k => m (k + 1))
            (by unfold PGSIZE at hal ⊢; omega)
            (by unfold PGSIZE at hrange ⊢; unfold MAXVA at hrange ⊢; omega)
            (fun k hk => by
              rw [show va + PGSIZE + PGSIZE * k = va + PGSIZE * (k + 1) from by ring]
              exact hcls (k + 1) (by omega))
            (fun k e hk hme hfl => hgood (k + 1) e (by omega) hme hfl)
            (fun k1 e1 k2 e2 h1 h2 hne hm1 hm2 hf1 hf2 =>
              hdist (k1 + 1) e1 (k2 + 1) e2 (by omega) (by omega) (by omega)
                hm1 hm2 hf1 hf2)
        refine ⟨pt', s', heq, ?_, ?_, ?_, ?_⟩
        · intro k e hk hme hfl
          rcases Nat.eq_zero_or_pos k with hk0 | hk0
          · subst hk0
            rw [hm0] at hme
            injection hme with hme2
            exact absurd (hme2 ▸ hfl0) hfl
          · obtain ⟨j, rfl⟩ : ∃ j, k = j + 1 := ⟨k - 1, by omega⟩
            have h2 := hc1 j e (by omega) hme hfl
            rw [show va + PGSIZE + PGSIZE * j = va + PGSIZE * (j + 1) from by ring] at h2
            exact h2
        · intro w hw hwk
          exact hc2 w hw (fun k hk => by
            rw [show va + PGSIZE + PGSIZE * k = va + PGSIZE * (k + 1) from by ring]
            exact hwk (k + 1) (by omega))
        · intro idx hid
          exact hc3 idx (fun k e hk hme hfl => hid (k + 1) e (by omega) hme hfl)
        · intro q c hq
          rcases hc4 q c hq with hq1 | ⟨k, e, hk, hme, hqe⟩
          · exact Or.inl hq1
          · exact Or.inr ⟨k + 1, e, by omega, hme, hqe⟩
      · rw [if_neg hfl0]
        have hg0 := hgood 0 e0 (by omega) hm0 hfl0
        have hS1rc : (if flags &&& MAP_SHARED ≠ 0 ∧ PTE_FLAGS e0 &&& PTE_D ≠ 0 then
            { s with log := s.log ++
              [FileOp.write fid offset (if bl > PGSIZE then PGSIZE else bl)] }
          else s).refcounts = s.refcounts := by
          by_cases hc : flags &&& MAP_SHARED ≠ 0 ∧ PTE_FLAGS e0 &&& PTE_D ≠ 0
          · rw [if_pos hc]
          · rw [if_neg hc]
        have hS1fl : (if flags &&& MAP_SHARED ≠ 0 ∧ PTE_FLAGS e0 &&& PTE_D ≠ 0 then
            { s with log := s.log ++
              [FileOp.write fid offset (if bl > PGSIZE then PGSIZE else bl)] }
          else s).freelists = s.freelists := by
          by_cases hc : flags &&& MAP_SHARED ≠ 0 ∧ PTE_FLAGS e0 &&& PTE_D ≠ 0
          · rw [if_pos hc]
          · rw [if_neg hc]
        unfold uvmunmap
        rw [if_neg (by omega)]
        obtain ⟨pt1, st1, hueq, hu1, hu2, hu3, hu4, _, hu6, _⟩ :=
          uvmunmapGo_spec cpu 1 pt va
            (if flags &&& MAP_SHARED ≠ 0 ∧ PTE_FLAGS e0 &&& PTE_D ≠ 0 then
              { s with log := s.log ++
                [FileOp.write fid offset (if bl > PGSIZE then PGSIZE else bl)] }
            else s) (fun _ => e0)
            hal
            (by unfold PGSIZE at hrange ⊢; unfold MAXVA at hrange ⊢; omega)
            (fun k hk => by
              have hk0 : k = 0 := by omega
              subst hk0
              rw [show va + PGSIZE * 0 = va from by ring, h0, hm0])
            (fun k hk => by
              rw [land_small e0 PTE_V (by unfold PTE_V; omega)]
              exact hfl0)
            (fun k hk => hg0.1)
            (fun k hk => ⟨hg0.2.1, hg0.2.2.1⟩)
            (fun k hk => by
              rw [hS1rc]
              exact ⟨hg0.2.2.2.1, hg0.2.2.2.2⟩)
            (fun k1 hk1 k2 hk2 hne => absurd (by omega : k1 = k2) hne)
        rw [hueq]
        dsimp only [Res.bind]
        obtain ⟨pt2, st2, heq2, hc1, hc2, hc3, hc4⟩ :=
          ih pt1 st1 flags fid (va + PGSIZE) ((offset + PGSIZE) % M32)
            (bl - (if bl > PGSIZE then PGSIZE else bl)) (fun k => m (k + 1))
            (by unfold PGSIZE at hal ⊢; omega)
            (by unfold PGSIZE at hrange ⊢; unfold MAXVA at hrange ⊢; omega)
            (fun k hk => by
              rw [hu2 (va + PGSIZE + PGSIZE * k)
                (by unfold PGSIZE at hrange ⊢; unfold MAXVA at hrange ⊢; omega)
                (fun k2 hk2 => by
                  have hk20 : k2 = 0 := by omega
                  subst hk20
                  rw [show va + PGSIZE + PGSIZE * k = va + PGSIZE * (k + 1) from by ring,
                    hpdiv (k + 1), hpdiv 0]
                  omega),
                show va + PGSIZE + PGSIZE * k = va + PGSIZE * (k + 1) from by ring]
              exact hcls (k + 1) (by omega))
            (fun k e hk hme hfl => by
              have hg := hgood (k + 1) e (by omega) hme hfl
              have hrcp : st1.refcounts (PTE2PA e / PGSIZE) =
                  s.refcounts (PTE2PA e / PGSIZE) := by
                rw [hu4 (PTE2PA e / PGSIZE) (fun k2 hk2 =>
                  hdist 0 e0 (k + 1) e (by omega) (by omega) (by omega)
                    hm0 hme hfl0 hfl), hS1rc]
              exact ⟨hg.1, hg.2.1, hg.2.2.1,
                by rw [hrcp]; exact hg.2.2.2.1,
                by rw [hrcp]; exact hg.2.2.2.2⟩)
            (fun k1 e1 k2 e2 h1 h2 hne hm1 hm2 hf1 hf2 =>
              hdist (k1 + 1) e1 (k2 + 1) e2 (by omega) (by omega) (by omega)
                hm1 hm2 hf1 hf2)
        refine ⟨pt2, st2, heq2, ?_, ?_, ?_, ?_⟩
        · intro k e hk hme hfl
          rcases Nat.eq_zero_or_pos k with hk0 | hk0
          · subst hk0
            rw [hm0] at hme
            injection hme with hme2
            subst hme2
            constructor
            · rw [show va + PGSIZE * 0 = va from by ring,
                hc2 va hva (fun k2 hk2 => by
                  rw [show va + PGSIZE + PGSIZE * k2 = va + PGSIZE * (k2 + 1) from by ring,
                    hpdiv (k2 + 1)]
                  omega)]
              have h1 := hu1 0 (by omega)
              rw [show va + PGSIZE * 0 = va from by ring] at h1
              exact h1
            · have h2 := hu3 0 (by omega)
              rw [hS1rc] at h2
              rw [hc3 (PTE2PA e0 / PGSIZE) (fun k2 e2 hk2 hme2 hfl2 =>
                hdist (k2 + 1) e2 0 e0 (by omega) (by omega) (by omega)
                  hme2 hm0 hfl2 hfl0)]
              exact h2
          · obtain ⟨j, rfl⟩ : ∃ j, k = j + 1 := ⟨k - 1, by omega⟩
            have h2 := hc1 j e (by omega) hme hfl
            rw [show va + PGSIZE + PGSIZE * j = va + PGSIZE * (j + 1) from by ring] at h2
            refine ⟨h2.1, ?_⟩
            rw [h2.2, hu4 (PTE2PA e / PGSIZE) (fun k2 hk2 =>
              hdist 0 e0 (j + 1) e (by omega) (by omega) (by omega)
                hm0 hme hfl0 hfl), hS1rc]
        · intro w hw hwk
          rw [hc2 w hw (fun k2 hk2 => by
              rw [show va + PGSIZE + PGSIZE * k2 = va + PGSIZE * (k2 + 1) from by ring]
              exact hwk (k2 + 1) (by omega)),
            hu2 w hw (fun k2 hk2 => by
              have hk20 : k2 = 0 := by omega
              subst hk20
              exact hwk 0 (by omega))]
        · intro idx hid
          rw [hc3 idx (fun k2 e2 hk2 hme2 hfl2 =>
              hid (k2 + 1) e2 (by omega) hme2 hfl2),
            hu4 idx (fun k2 hk2 => by
              have hk20 : k2 = 0 := by omega
              subst hk20
              exact hid 0 e0 (by omega) hm0 hfl0),
            hS1rc]
        · intro q c hq
          rcases hc4 q c hq with hq1 | ⟨k, e, hk, hme, hqe⟩
          · rcases hu6 q c hq1 with hq2 | ⟨k2, hk2, hq2⟩
            · rw [hS1fl] at hq2
              exact Or.inl hq2
            · exact Or.inr ⟨0, e0, by omega, hm0, hq2⟩
          · exact Or.inr ⟨k + 1, e, by omega, hme, hqe⟩

/-- C8: unmapping the cut `[B, C)` strictly inside the single VMA `[A, Z)`
(offset `o`) leaves exactly the two survivors `[A, B)` with offset `o` and
`[C, Z)` with offset `o + (C - A)`, and releases the mapped pages of
`[B, C)`: their entries are cleared and their frames' refcounts drop by
one. -/
theorem munmap_middle_split (cpu : Fin NCPU) (pt : PT2) (s : KState)
    (A B C Z prot flags fid o : Nat) (m : Nat → Option Nat)
    (hB : B % PGSIZE = 0) (hC : C % PGSIZE = 0)
    (hAB : A < B) (hBC : B < C) (hCZ : C < Z)
    (hCM : C ≤ MAXVA)
    (ho : o + (C - A) < M32)
    (hcls : ∀ k, k < (C - B) / PGSIZE → ptLookup pt (B + PGSIZE * k) = m k)
    (hgood : ∀ k e, k < (C - B) / PGSIZE → m k = some e →
      PTE_FLAGS e &&& PTE_V ≠ 0 →
      PTE_FLAGS e ≠ PTE_V ∧ KERNEND ≤ PTE2PA e ∧ PTE2PA e < PHYSTOP ∧
      1 ≤ s.refcounts (PTE2PA e / PGSIZE) ∧ s.refcounts (PTE2PA e / PGSIZE) < M32)
    (hdist : ∀ k1 e1 k2 e2, k1 < (C - B) / PGSIZE → k2 < (C - B) / PGSIZE →
      k1 ≠ k2 → m k1 = some e1 → m k2 = some e2 →
      PTE_FLAGS e1 &&& PTE_V ≠ 0 → PTE_FLAGS e2 &&& PTE_V ≠ 0 →
      PTE2PA e1 / PGSIZE ≠ PTE2PA e2 / PGSIZE) :
    ∃ pt' s',
      munmap cpu pt s [⟨A, Z, prot, flags, fid, o⟩] B (C - B) =
        .ok (0, [⟨A, B, prot, flags, fid, o⟩,
          ⟨C, Z, prot, flags, fid, o + (C - A)⟩], pt', s') ∧
      (∀ k e, k < (C - B) / PGSIZE → m k = some e → PTE_FLAGS e &&& PTE_V ≠ 0 →
        ptLookup pt' (B + PGSIZE * k) = some 0 ∧
        s'.refcounts (PTE2PA e / PGSIZE) = s.refcounts (PTE2PA e / PGSIZE) - 1) ∧
      (∀ w, w < MAXVA → (∀ k, k < (C - B) / PGSIZE →
        w / PGSIZE ≠ (B + PGSIZE * k) / PGSIZE) →
        ptLookup pt' w = ptLookup pt w) := by
  have hus : pgRoundDown B = B := pgRoundDown_self hB
  have hue : pgRoundUp ((B + (C - B)) % M64) = C := by
    have h1 : B + (C - B) = C := by omega
    rw [h1, Nat.mod_eq_of_lt (by unfold MAXVA at hCM; unfold M64; omega)]
    unfold pgRoundUp
    unfold PGSIZE at hC ⊢
    omega
  have hsub : sub64 C B = C - B := by
    unfold sub64 M64
    unfold MAXVA at hCM
    omega
  have hofio : (o + (B - A)) % M32 = o + (B - A) :=
    Nat.mod_eq_of_lt (by unfold M32 at ho ⊢; omega)
  have hoft : (o + (B - A) + (C - B)) % M32 = o + (C - A) := by
    have h1 : o + (B - A) + (C - B) = o + (C - A) := by omega
    rw [h1]
    exact Nat.mod_eq_of_lt ho
  have hbl : sub64 C B % M32 = C - B := by
    rw [hsub]
    exact Nat.mod_eq_of_lt (by unfold M32 at ho ⊢; omega)
  have hnp : (sub64 C B + PGSIZE - 1) / PGSIZE = (C - B) / PGSIZE := by
    rw [hsub]
    unfold PGSIZE at hB hC ⊢
    omega
  have hfs : vmaFindSplit [(⟨A, Z, prot, flags, fid, o⟩ : VMA)] B =
      some ([], ⟨A, Z, prot, flags, fid, o⟩, []) := by
    unfold vmaFindSplit
    rw [if_pos ⟨show A ≤ B from by omega, show B < Z from by omega⟩]
  unfold munmap
  dsimp only
  rw [hus, hue, hfs]
  dsimp only
  rw [if_pos (show A < B from hAB)]
  unfold munmapGo
  dsimp only
  rw [if_pos (show C < Z from hCZ)]
  unfold vma_free
  dsimp only
  rw [hofio, hofio, hoft, hbl, hnp]
  obtain ⟨pt1, s1, hfeq, hr1, hr2, _, _⟩ :=
    vmaFreeGo_spec cpu ((C - B) / PGSIZE) pt s flags fid B (o + (B - A)) (C - B) m
      hB
      (by unfold PGSIZE at hB hC ⊢; unfold MAXVA at hCM ⊢; omega)
      hcls hgood hdist
  rw [hfeq]
  dsimp only [Res.bind]
  exact ⟨pt1, s1, rfl, hr1, hr2⟩

/-- Witness for C8: a single VMA `[0x1000, 0x3800)` cut at `[0x2000, 0x3000)`
over an empty page table splits into `[0x1000, 0x2000)` and
`[0x3000, 0x3800)` with file offset `0x2000`. -/
theorem munmap_middle_split_witness :
    ((0x2000 : Nat) % PGSIZE = 0 ∧ (0x3000 : Nat) % PGSIZE = 0 ∧
      (0x1000 : Nat) < 0x2000 ∧ (0x2000 : Nat) < 0x3000 ∧
      (0x3000 : Nat) < 0x3800 ∧ (0x3000 : Nat) ≤ MAXVA ∧
      (0 : Nat) + (0x3000 - 0x1000) < M32 ∧
      (∀ k, k < (0x3000 - 0x2000) / PGSIZE →
        ptLookup ptEmpty (0x2000 + PGSIZE * k) = none) ∧
      (∀ k e, k < (0x3000 - 0x2000) / PGSIZE → (none : Option Nat) = some e →
        PTE_FLAGS e &&& PTE_V ≠ 0 →
        PTE_FLAGS e ≠ PTE_V ∧ KERNEND ≤ PTE2PA e ∧ PTE2PA e < PHYSTOP ∧
        1 ≤ ksEmpty.refcounts (PTE2PA e / PGSIZE) ∧
        ksEmpty.refcounts (PTE2PA e / PGSIZE) < M32) ∧
      (∀ k1 e1 k2 e2, k1 < (0x3000 - 0x2000) / PGSIZE →
        k2 < (0x3000 - 0x2000) / PGSIZE → k1 ≠ k2 →
        (none : Option Nat) = some e1 → (none : Option Nat) = some e2 →
        PTE_FLAGS e1 &&& PTE_V ≠ 0 → PTE_FLAGS e2 &&& PTE_V ≠ 0 →
        PTE2PA e1 / PGSIZE ≠ PTE2PA e2 / PGSIZE)) ∧
    (∃ pt' s',
      munmap cpu0 ptEmpty ksEmpty
          [⟨0x1000, 0x3800, PROT_READ, MAP_PRIVATE, 5, 0⟩] 0x2000
          (0x3000 - 0x2000) =
        .ok (0, [⟨0x1000, 0x2000, PROT_READ, MAP_PRIVATE, 5, 0⟩,
          ⟨0x3000, 0x3800, PROT_READ, MAP_PRIVATE, 5,
            0 + (0x3000 - 0x1000)⟩], pt', s') ∧
      (∀ k e, k < (0x3000 - 0x2000) / PGSIZE → (none : Option Nat) = some e →
        PTE_FLAGS e &&& PTE_V ≠ 0 →
        ptLookup pt' (0x2000 + PGSIZE * k) = some 0 ∧
        s'.refcounts (PTE2PA e / PGSIZE) =
          ksEmpty.refcounts (PTE2PA e / PGSIZE) - 1) ∧
      (∀ w, w < MAXVA → (∀ k, k < (0x3000 - 0x2000) / PGSIZE →
        w / PGSIZE ≠ (0x2000 + PGSIZE * k) / PGSIZE) →
        ptLookup pt' w = ptLookup ptEmpty w)) :=
  ⟨⟨by decide, by decide, by decide, by decide, by decide, by decide, by decide,
      by decide, fun k e hk hme => Option.noConfusion hme,
      fun k1 e1 k2 e2 h1 h2 hne hm1 => Option.noConfusion hm1⟩,
    munmap_middle_split cpu0 ptEmpty ksEmpty 0x1000 0x2000 0x3000 0x3800
      PROT_READ MAP_PRIVATE 5 0 (fun _ => none)
      (by decide) (by decide) (by decide) (by decide) (by decide) (by decide)
      (by decide) (by decide)
      (fun k e hk hme => Option.noConfusion hme)
      (fun k1 e1 k2 e2 h1 h2 hne hm1 => Option.noConfusion hm1)⟩

end Xv6
